import Mathlib

/-!
Verification development for the sudoku_gen_go puzzle generator.

The definitions below are a shallow embedding of the Go source
(`internal/generator/generator.go` and `internal/types/types.go`):

* `Grid` mirrors `types.Grid` (size, box dimensions, puzzle matrix,
  solution matrix, subgrid/region list, layout type).
* Randomness (`math/rand`) is modelled by oracle parameters:
  `valueOrder : Nat → List Nat` stands for the stream of
  `getShuffledNumbers()` results, `pick : Nat → Nat` for the stream of
  `rand.Intn` draws (reduced modulo the argument of `Intn`), and
  `cellShuffle : Nat → List Nat` for the shuffled index list built by
  `removeNumbers`.  A counter `t` is threaded through the computation so
  that successive draws consult successive oracle positions; every
  realizable random behaviour of the Go code corresponds to some oracle.
* The wall-clock deadline check `time.Since(startTime) > maxTime` at the
  head of `solve` is modelled by the boolean parameter `timedOut`.
* Go's in-place mutation of `grid.Puzzle` becomes functional update; a
  call returns the updated grid.
-/

/-- Layout type, from `types.SudokuType` (`normal` or `jigsaw`). -/
inductive SudokuType where
  | normal : SudokuType
  | jigsaw : SudokuType
deriving DecidableEq, Repr

/-- Box dimensions per size, from `types.getBoxDimensions`. -/
def getBoxDimensions (size : Nat) : Nat × Nat :=
  if size = 9 then (3, 3)
  else if size = 12 then (3, 4)
  else if size = 16 then (4, 4)
  else (3, 3)

/-- The grid record, from `types.Grid`: `Puzzle` and `Solution` are
`size × size` integer matrices, `SubGrids` the list of regions (each a list
of linear cell indices `row*size+col`). -/
structure Grid where
  size : Nat
  boxWidth : Nat
  boxHeight : Nat
  puzzle : List (List Nat)
  solution : List (List Nat)
  subGrids : List (List Nat)
  type : SudokuType
deriving DecidableEq, Repr

/-- Fresh grid, from `types.NewGrid`: all-zero puzzle and solution matrices,
box dimensions from the size table, no subgrids yet. -/
def newGrid (size : Nat) (typ : SudokuType) : Grid :=
  { size := size
    boxWidth := (getBoxDimensions size).1
    boxHeight := (getBoxDimensions size).2
    puzzle := List.replicate size (List.replicate size 0)
    solution := List.replicate size (List.replicate size 0)
    subGrids := []
    type := typ }

/-- Read one cell of a matrix (Go `m[r][c]`; out-of-range reads default to
`0`, which the Go code never performs on well-formed grids). -/
def cellM (m : List (List Nat)) (r c : Nat) : Nat :=
  (m.getD r []).getD c 0

/-- Write one cell of a matrix (Go `m[r][c] = v`). -/
def setCellM (m : List (List Nat)) (r c v : Nat) : List (List Nat) :=
  m.set r ((m.getD r []).set c v)

/-- Write one puzzle cell of a grid (Go `grid.Puzzle[row][col] = num`). -/
def setPuzzle (g : Grid) (r c v : Nat) : Grid :=
  { g with puzzle := setCellM g.puzzle r c v }

/-- Well-formedness of a `size × size` matrix: `size` rows of `size` entries. -/
def WFm (n : Nat) (m : List (List Nat)) : Prop :=
  m.length = n ∧ ∀ row ∈ m, row.length = n

/-- First region index whose cell list contains `cellIndex`, with a running
index, from the loop body of `ClassicGenerator.findRegionIndex`. -/
def findRegionIndexAux : List (List Nat) → Nat → Nat → Int
  | [], _, _ => -1
  | region :: rest, cellIndex, i =>
    if cellIndex ∈ region then (i : Int) else findRegionIndexAux rest cellIndex (i + 1)

/-- From `ClassicGenerator.findRegionIndex`: scan the region list in order and
return the index of the first region containing the cell, `-1` if none. -/
def findRegionIndex (subGrids : List (List Nat)) (cellIndex : Nat) : Int :=
  findRegionIndexAux subGrids cellIndex 0

/-- From `ClassicGenerator.isValid`: `num` may be placed at `(row, col)` iff it
does not already occur in the row, in the column, or in the region returned by
`findRegionIndex` for the cell.  Go indexes `grid.SubGrids[regionIndex]`
directly and would panic on `-1`; here the lookup is by `getD` on the
clamped index, and the partition precondition (see the safety claim) makes
the two agree on every grid the solver touches. -/
def isValid (g : Grid) (num row col : Nat) : Bool :=
  ((List.range g.size).all fun x => cellM g.puzzle row x != num) &&
  ((List.range g.size).all fun x => cellM g.puzzle x col != num) &&
  (let cellIndex := row * g.size + col
   let regionIndex := findRegionIndex g.subGrids cellIndex
   (g.subGrids.getD regionIndex.toNat []).all fun idx =>
     cellM g.puzzle (idx / g.size) (idx % g.size) != num)

/-- Number of values `1..size` accepted by `isValid` at a cell, from the inner
counting loop of `findEmptyPositionWithMRV`. -/
def countCandidates (g : Grid) (row col : Nat) : Nat :=
  (List.range g.size).countP fun k => isValid g (k + 1) row col

/-- The row-major scan of `findEmptyPositionWithMRV`, carrying
`minPossibilities` and the best position found so far. -/
def mrvScan (g : Grid) : List (Nat × Nat) → Nat → Option (Nat × Nat) → Nat × Option (Nat × Nat)
  | [], minP, best => (minP, best)
  | p :: rest, minP, best =>
    if cellM g.puzzle p.1 p.2 = 0 then
      let cnt := countCandidates g p.1 p.2
      if cnt < minP then mrvScan g rest cnt (some p)
      else mrvScan g rest minP best
    else mrvScan g rest minP best

/-- All positions `(i, j)` with `i, j < n` in row-major order, the iteration
space of the two nested loops in `findEmptyPositionWithMRV`. -/
def allPositions (n : Nat) : List (Nat × Nat) :=
  (List.range n).flatMap fun i => (List.range n).map fun j => (i, j)

/-- From `ClassicGenerator.findEmptyPositionWithMRV`: scan every cell, track
the empty cell with the fewest candidates (strict improvement, so the first
minimal cell in row-major order wins), `none` when no cell is empty. -/
def findEmptyPositionWithMRV (g : Grid) : Option (Nat × Nat) :=
  (mrvScan g (allPositions g.size) (g.size + 1) none).2

/-- The candidate-value loop of `ClassicGenerator.solve`, abstracted over the
recursive solver `S`: try each `num` in order, place it if legal, recurse;
on recursive failure reset the cell to `0` (Go `grid.Puzzle[row][col] = 0`)
and continue with the next candidate. -/
def tryNumsWith (S : Grid → Nat → Bool × Grid × Nat) (row col : Nat) :
    Grid → List Nat → Nat → Bool × Grid × Nat
  | g, [], t => (false, g, t)
  | g, num :: rest, t =>
    if isValid g num row col then
      match S (setPuzzle g row col num) t with
      | (true, g2, t2) => (true, g2, t2)
      | (false, g2, t2) => tryNumsWith S row col (setPuzzle g2 row col 0) rest t2
    else tryNumsWith S row col g rest t

/-- From `ClassicGenerator.solve`: abort with `false` when the deadline has
passed, succeed with `true` when no empty cell remains, otherwise pick the
MRV cell and backtrack over the shuffled candidate list `valueOrder t`.
The `fuel` argument bounds the recursion depth; since every recursive call
fills one more cell, depth never exceeds the number of empty cells, and all
callers pass `size*size + 1`, so the fuel-exhaustion branch is unreachable. -/
def solveAux (valueOrder : Nat → List Nat) (timedOut : Bool) :
    Nat → Grid → Nat → Bool × Grid × Nat
  | 0, g, t => (false, g, t)
  | fuel + 1, g, t =>
    if timedOut then (false, g, t)
    else
      match findEmptyPositionWithMRV g with
      | none => (true, g, t)
      | some p => tryNumsWith (solveAux valueOrder timedOut fuel) p.1 p.2 g (valueOrder t) (t + 1)

/-- Entry point of the backtracking search, `ClassicGenerator.solve`. -/
def solve (g : Grid) (valueOrder : Nat → List Nat) (timedOut : Bool) (t : Nat) :
    Bool × Grid × Nat :=
  solveAux valueOrder timedOut (g.size * g.size + 1) g t

theorem list_getD_set_eq {α : Type} (l : List α) (i : Nat) (v d : α) (h : i < l.length) :
    (l.set i v).getD i d = v := by
  induction l generalizing i with
  | nil => simp at h
  | cons a l ih =>
    cases i with
    | zero => simp [List.set, List.getD]
    | succ i =>
      simp only [List.set, List.getD_cons_succ]
      exact ih i (by simpa using h)

theorem list_getD_set_ne {α : Type} (l : List α) (i j : Nat) (v d : α) (h : i ≠ j) :
    (l.set i v).getD j d = l.getD j d := by
  induction l generalizing i j with
  | nil => simp [List.set]
  | cons a l ih =>
    cases i with
    | zero =>
      cases j with
      | zero => exact absurd rfl h
      | succ j => simp [List.set, List.getD]
    | succ i =>
      cases j with
      | zero => simp [List.set, List.getD]
      | succ j =>
        simp only [List.set, List.getD_cons_succ]
        exact ih i j (by omega)

theorem list_set_getD_self {α : Type} (l : List α) (i : Nat) (d : α) (h : i < l.length) :
    l.set i (l.getD i d) = l := by
  induction l generalizing i with
  | nil => simp
  | cons a l ih =>
    cases i with
    | zero => simp [List.set, List.getD]
    | succ i =>
      simp only [List.set, List.getD_cons_succ, List.cons.injEq, true_and]
      exact ih i (by simpa using h)

/-- From `ClassicGenerator.generateRectangularSubgrids`: tile the grid with
`boxWidth × boxHeight` rectangles in row-major box order. -/
def generateRectangularSubgrids (size boxWidth boxHeight : Nat) : List (List Nat) :=
  ((List.range (size / boxHeight)).flatMap fun boxRow =>
    (List.range (size / boxWidth)).map fun boxCol =>
      (List.range boxHeight).flatMap fun i =>
        (List.range boxWidth).map fun j =>
          (boxRow * boxHeight + i) * size + (boxCol * boxWidth + j))

/-- From `ClassicGenerator.generateNormalSubgrids`: square boxes of side
`⌊√size⌋` when `size` is a perfect square, otherwise the hard-coded
`3 × 4` rectangles (the Go comment: default for size 12). -/
def generateNormalSubgrids (size : Nat) : List (List Nat) :=
  let boxSize := Nat.sqrt size
  if boxSize * boxSize ≠ size then generateRectangularSubgrids size 3 4
  else
    (List.range boxSize).flatMap fun boxRow =>
      (List.range boxSize).map fun boxCol =>
        (List.range boxSize).flatMap fun i =>
          (List.range boxSize).map fun j =>
            (boxRow * boxSize + i) * size + (boxCol * boxSize + j)

/-- The 4-neighbour list of a cell, from the direction loop of
`ClassicGenerator.buildAdjacencyList`: directions `(-1,0)`, `(1,0)`,
`(0,-1)`, `(0,1)` in that order, each kept when the moved coordinate stays
inside `[0, size)`.  The Go `int` bounds checks are rendered on `Nat`
coordinates (`newR >= 0` for the `-1` moves becomes `1 ≤ r`). -/
def neighbors (n idx : Nat) : List Nat :=
  let r := idx / n
  let c := idx % n
  (if 1 ≤ r ∧ r - 1 < n ∧ c < n then [(r - 1) * n + c] else []) ++
  (if r + 1 < n ∧ c < n then [(r + 1) * n + c] else []) ++
  (if r < n ∧ 1 ≤ c ∧ c - 1 < n then [r * n + (c - 1)] else []) ++
  (if r < n ∧ c + 1 < n then [r * n + (c + 1)] else [])

/-- From `ClassicGenerator.buildAdjacencyList`: the neighbour lists of all
`size*size` cells.  The growth loop below consults `neighbors` directly,
which agrees with indexing this precomputed list at any in-range cell. -/
def buildAdjacencyList (n : Nat) : List (List Nat) :=
  (List.range (n * n)).map (neighbors n)

/-- The region-growth loop of `generateJigsawRegionsSerial`: while the region
has fewer than `size` cells, collect every unused neighbour of every region
cell (in region order, duplicates kept, as the Go double loop does), fail
when there is none, otherwise append a randomly picked candidate and mark it
used.  `fuel` bounds the iteration count; callers pass `n`, which suffices
because every iteration grows the region by one cell. -/
def growRegion (n : Nat) (pick : Nat → Nat) :
    Nat → List Nat → List Nat → Nat → Option (List Nat × List Nat) × Nat
  | 0, region, used, t =>
    (if region.length < n then none else some (region, used), t)
  | fuel + 1, region, used, t =>
    if region.length < n then
      let candidates := region.flatMap fun cell =>
        (neighbors n cell).filter fun nb => !(used.contains nb)
      if candidates.length = 0 then (none, t)
      else
        let next := candidates.getD (pick t % candidates.length) 0
        growRegion n pick fuel (region ++ [next]) (next :: used) (t + 1)
    else (some (region, used), t)

/-- The per-attempt region loop of `generateJigsawRegionsSerial`: for each of
the `size` regions in turn, list the unused cells, fail when none remains,
seed the region with a random unused cell and grow it.  `used` is the Go
`map[int]bool` rendered as the list of inserted cells (every insertion is of
a cell not yet present, so its length is the map's cardinality). -/
def buildRegions (n : Nat) (pick : Nat → Nat) :
    Nat → List (List Nat) → List Nat → Nat → Option (List (List Nat) × List Nat) × Nat
  | 0, acc, used, t => (some (acc, used), t)
  | k + 1, acc, used, t =>
    let available := (List.range (n * n)).filter fun i => !(used.contains i)
    if available.length = 0 then (none, t)
    else
      let start := available.getD (pick t % available.length) 0
      match growRegion n pick n [start] (start :: used) (t + 1) with
      | (none, t2) => (none, t2)
      | (some (region, used2), t2) => buildRegions n pick k (acc ++ [region]) used2 t2

/-- One attempt of `generateJigsawRegionsSerial`: the attempt is accepted only
when all `size` regions were grown and `len(used) == size*size`. -/
def tryJigsawAttempt (n : Nat) (pick : Nat → Nat) (t : Nat) :
    Option (List (List Nat)) × Nat :=
  match buildRegions n pick n [] [] t with
  | (none, t2) => (none, t2)
  | (some (regions, used), t2) =>
    (if used.length = n * n then some regions else none, t2)

/-- From `ClassicGenerator.generateJigsawRegionsSerial`: repeat attempts up to
the attempt budget (`maxAttempts = 1000000` in Go), returning the first
accepted region set, `none` when the budget is exhausted. -/
def generateJigsawRegionsSerial (n : Nat) (pick : Nat → Nat) :
    Nat → Nat → Option (List (List Nat)) × Nat
  | 0, t => (none, t)
  | attempts + 1, t =>
    match tryJigsawAttempt n pick t with
    | (some regions, t2) => (some regions, t2)
    | (none, t2) => generateJigsawRegionsSerial n pick attempts t2

/-- Number of cells carved out for a difficulty, the arithmetic of
`removeNumbers`: `(difficulty*10 + 20) * size * size / 100` in Go `int`
division. -/
def cellsToRemoveCount (difficulty n : Nat) : Nat :=
  (difficulty * 10 + 20) * n * n / 100

/-- From `ClassicGenerator.removeNumbers`: zero out the first
`cellsToRemove` cells of the shuffled index list `cells` (the result of
`rand.Shuffle` over `0..size*size-1`, passed here as an oracle input). -/
def removeNumbers (g : Grid) (difficulty : Nat) (cells : List Nat) : Grid :=
  (cells.take (cellsToRemoveCount difficulty g.size)).foldl
    (fun acc idx => setPuzzle acc (idx / g.size) (idx % g.size) 0) g

/-- The success path of `ClassicGenerator.Generate` after region assignment:
solve the grid; on success copy the solved puzzle into the solution field and
carve with `removeNumbers`, otherwise fail this attempt. -/
def solveAndCarve (g : Grid) (difficulty : Nat) (valueOrder cellShuffle : Nat → List Nat)
    (timedOut : Bool) (t : Nat) : Option Grid × Nat :=
  match solveAux valueOrder timedOut (g.size * g.size + 1) g t with
  | (true, g2, t2) =>
    (some (removeNumbers { g2 with solution := g2.puzzle } difficulty (cellShuffle t2)), t2 + 1)
  | (false, _, t2) => (none, t2)

/-- One iteration of the retry loop of `ClassicGenerator.Generate`: build a
fresh grid, attach jigsaw regions (failing the attempt when jigsaw synthesis
fails) or the deterministic box regions, then solve and carve. -/
def generateAttempt (size difficulty : Nat) (typ : SudokuType) (pick : Nat → Nat)
    (valueOrder cellShuffle : Nat → List Nat) (timedOut : Bool) (t : Nat) :
    Option Grid × Nat :=
  match typ with
  | SudokuType.jigsaw =>
    match generateJigsawRegionsSerial size pick 1000000 t with
    | (none, t2) => (none, t2)
    | (some regions, t2) =>
      solveAndCarve { newGrid size typ with subGrids := regions }
        difficulty valueOrder cellShuffle timedOut t2
  | SudokuType.normal =>
    solveAndCarve { newGrid size typ with subGrids := generateNormalSubgrids size }
      difficulty valueOrder cellShuffle timedOut t

/-- The retry loop of `ClassicGenerator.Generate` (serial variant): up to
`maxRetries` attempts, returning the first successful puzzle. -/
def generateSerial (size difficulty : Nat) (typ : SudokuType) (pick : Nat → Nat)
    (valueOrder cellShuffle : Nat → List Nat) (timedOut : Bool) :
    Nat → Nat → Option Grid × Nat
  | 0, t => (none, t)
  | retries + 1, t =>
    match generateAttempt size difficulty typ pick valueOrder cellShuffle timedOut t with
    | (some g, t2) => (some g, t2)
    | (none, t2) => generateSerial size difficulty typ pick valueOrder cellShuffle timedOut retries t2

/-- Values of row `r`, in the scan order of `isValid`'s row check. -/
def rowVals (n : Nat) (m : List (List Nat)) (r : Nat) : List Nat :=
  (List.range n).map fun c => cellM m r c

/-- Values of column `c`, in the scan order of `isValid`'s column check. -/
def colVals (n : Nat) (m : List (List Nat)) (c : Nat) : List Nat :=
  (List.range n).map fun r => cellM m r c

/-- Values of a region, in the scan order of `isValid`'s region check. -/
def regionVals (n : Nat) (m : List (List Nat)) (region : List Nat) : List Nat :=
  region.map fun idx => cellM m (idx / n) (idx % n)

/-- The region-set partition invariant of the spec's data model: `size`
regions of `size` cells each, no cell repeated, and the cells are exactly
`0..size*size-1`. -/
def Partition (n : Nat) (sg : List (List Nat)) : Prop :=
  sg.length = n ∧ (∀ reg ∈ sg, reg.length = n) ∧ sg.flatten.Nodup ∧
    (∀ c ∈ sg.flatten, c < n * n) ∧ ∀ c < n * n, c ∈ sg.flatten

/-- No duplicate among placed (nonzero) values in any row, column or region:
the invariant the solver maintains. -/
def Consistent (n : Nat) (sg : List (List Nat)) (m : List (List Nat)) : Prop :=
  ∀ v, 1 ≤ v →
    (∀ r < n, (rowVals n m r).count v ≤ 1) ∧
    (∀ c < n, (colVals n m c).count v ≤ 1) ∧
    (∀ reg ∈ sg, (regionVals n m reg).count v ≤ 1)

/-- Every cell value is at most `n` (values are `0..n`). -/
def Bounded (n : Nat) (m : List (List Nat)) : Prop :=
  ∀ r < n, ∀ c < n, cellM m r c ≤ n

/-- No empty cell remains. -/
def NoZeros (n : Nat) (m : List (List Nat)) : Prop :=
  ∀ r < n, ∀ c < n, cellM m r c ≠ 0

/-- The full Latin-square-with-regions property of a solved matrix: every row,
every column and every region of the region set contains each value
`1..size` exactly once. -/
def LatinSquare (n : Nat) (sg : List (List Nat)) (m : List (List Nat)) : Prop :=
  (∀ v, 1 ≤ v → v ≤ n →
    (∀ r < n, (rowVals n m r).count v = 1) ∧
    (∀ c < n, (colVals n m c).count v = 1) ∧
    (∀ reg ∈ sg, (regionVals n m reg).count v = 1)) ∧
  NoZeros n m

/-- Number of empty cells of a matrix, counted over the linear cell indices. -/
def countZeros (n : Nat) (m : List (List Nat)) : Nat :=
  (List.range (n * n)).countP fun idx => cellM m (idx / n) (idx % n) = 0

theorem list_getD_mem {α : Type} (l : List α) (i : Nat) (d : α) (h : i < l.length) :
    l.getD i d ∈ l := by
  induction l generalizing i with
  | nil => simp at h
  | cons a l ih =>
    cases i with
    | zero => simp [List.getD]
    | succ i =>
      simp only [List.getD_cons_succ]
      exact List.mem_cons_of_mem a (ih i (by simpa using h))

theorem list_set_oob {α : Type} (l : List α) (i : Nat) (v : α) (h : l.length ≤ i) :
    l.set i v = l := by
  induction l generalizing i with
  | nil => simp
  | cons a l ih =>
    cases i with
    | zero => simp at h
    | succ i => simp [List.set, ih i (by simpa using h)]

theorem list_mem_set {α : Type} (l : List α) (i : Nat) (v x : α) (h : x ∈ l.set i v) :
    x ∈ l ∨ x = v := by
  induction l generalizing i with
  | nil => simp at h
  | cons a l ih =>
    cases i with
    | zero =>
      rcases List.mem_cons.mp h with h | h
      · exact Or.inr h
      · exact Or.inl (List.mem_cons_of_mem a h)
    | succ i =>
      rcases List.mem_cons.mp h with h | h
      · exact Or.inl (by simp [h])
      · rcases ih i h with h | h
        · exact Or.inl (List.mem_cons_of_mem a h)
        · exact Or.inr h

theorem cellM_setCellM_self {m : List (List Nat)} {n r c : Nat} (v : Nat)
    (hWF : WFm n m) (hr : r < n) (hc : c < n) :
    cellM (setCellM m r c v) r c = v := by
  have hrl : r < m.length := by rw [hWF.1]; exact hr
  have hrow : (m.getD r []).length = n := hWF.2 _ (list_getD_mem m r [] hrl)
  unfold cellM setCellM
  rw [list_getD_set_eq _ _ _ _ hrl]
  exact list_getD_set_eq _ _ _ _ (by rw [hrow]; exact hc)

theorem cellM_setCellM_ne {m : List (List Nat)} {r c : Nat} (v : Nat) (r' c' : Nat)
    (h : ¬(r' = r ∧ c' = c)) :
    cellM (setCellM m r c v) r' c' = cellM m r' c' := by
  unfold cellM setCellM
  by_cases hrr : r' = r
  · subst hrr
    have hcc : c' ≠ c := fun hc => h ⟨rfl, hc⟩
    by_cases hrl : r' < m.length
    · rw [list_getD_set_eq _ _ _ _ hrl]
      exact list_getD_set_ne _ _ _ _ _ (Ne.symm hcc)
    · rw [list_set_oob _ _ _ (by omega)]
  · rw [list_getD_set_ne _ _ _ _ _ (fun he => hrr he.symm)]

theorem WFm_setCellM {m : List (List Nat)} {n : Nat} (r c v : Nat) (hWF : WFm n m) :
    WFm n (setCellM m r c v) := by
  by_cases hrl : r < m.length
  · constructor
    · rw [setCellM, List.length_set]; exact hWF.1
    · intro row hrow
      rcases list_mem_set _ _ _ _ hrow with h | h
      · exact hWF.2 _ h
      · subst h
        rw [List.length_set]
        exact hWF.2 _ (list_getD_mem m r [] hrl)
  · rw [setCellM, list_set_oob _ _ _ (by omega)]
    exact hWF

theorem findRegionIndexAux_none (cell : Nat) :
    ∀ (sg : List (List Nat)) (i : Nat), (∀ reg ∈ sg, cell ∉ reg) →
      findRegionIndexAux sg cell i = -1 := by
  intro sg
  induction sg with
  | nil => intro i _; rfl
  | cons r rest ih =>
    intro i h
    have hr : cell ∉ r := h r (by simp)
    simp only [findRegionIndexAux, if_neg hr]
    exact ih (i + 1) fun reg hreg => h reg (List.mem_cons_of_mem r hreg)

theorem findRegionIndexAux_covered (cell : Nat) :
    ∀ (sg : List (List Nat)) (i : Nat), (∃ reg ∈ sg, cell ∈ reg) →
      ∃ k, k < sg.length ∧ findRegionIndexAux sg cell i = ((i + k : Nat) : Int) := by
  intro sg
  induction sg with
  | nil => intro i h; simp at h
  | cons r rest ih =>
    intro i h
    by_cases hr : cell ∈ r
    · exact ⟨0, by simp, by simp [findRegionIndexAux, hr]⟩
    · have hrest : ∃ reg ∈ rest, cell ∈ reg := by
        rcases h with ⟨reg, hreg, hcell⟩
        rcases List.mem_cons.mp hreg with h' | h'
        · exact absurd (h' ▸ hcell) hr
        · exact ⟨reg, h', hcell⟩
      rcases ih (i + 1) hrest with ⟨k, hk, heq⟩
      exact ⟨k + 1, by simpa using Nat.succ_lt_succ hk, by
        simp only [findRegionIndexAux, if_neg hr]
        rw [heq]; congr 1; omega⟩

/-- Modelled from the spec: the box layout as the spec describes it, axis
aligned `boxWidth × boxHeight` rectangles generated in row-major box order.
Used as the reference value for the refinement claim about
`generateNormalSubgrids`. -/
def boxRegionsSpec (w h size : Nat) : List (List Nat) :=
  (List.range (size / h)).flatMap fun bR =>
    (List.range (size / w)).map fun bC =>
      (List.range h).flatMap fun i =>
        (List.range w).map fun j => (bR * h + i) * size + (bC * w + j)

set_option maxRecDepth 100000 in
set_option maxHeartbeats 2000000 in
/-- C6: for every supported size in {9, 12, 16}, box-layout region synthesis
returns exactly the row-major list of axis-aligned rectangles of the stated
dimensions (3×3 for 9, 3×4 for 12, 4×4 for 16) and that region set
partitions the grid.  `generateNormalSubgrids` is a total function, so it is
deterministic and cannot fail. -/
theorem C6_box_layout_regions :
    (generateNormalSubgrids 9 = boxRegionsSpec 3 3 9 ∧ Partition 9 (generateNormalSubgrids 9)) ∧
    (generateNormalSubgrids 12 = boxRegionsSpec 3 4 12 ∧ Partition 12 (generateNormalSubgrids 12)) ∧
    (generateNormalSubgrids 16 = boxRegionsSpec 4 4 16 ∧ Partition 16 (generateNormalSubgrids 16)) := by
  have h9 : Nat.sqrt 9 = 3 := by norm_num
  have h12 : Nat.sqrt 12 = 3 := by norm_num
  have h16 : Nat.sqrt 16 = 4 := by norm_num
  unfold Partition
  simp only [generateNormalSubgrids, h9, h12, h16]
  decide

/-- C10: under the precondition that the region set covers every in-range
cell, `findRegionIndex` returns a valid index into the region list for every
in-range cell, so `isValid`'s indexing of `grid.SubGrids[regionIndex]` is in
bounds; for a cell covered by no region it returns `-1`, which is not a
valid list index (in Go the access `grid.SubGrids[-1]` then panics). -/
theorem C10_findRegionIndex_safety (n : Nat) (sg : List (List Nat)) (cell : Nat) :
    ((∀ c < n * n, ∃ reg ∈ sg, c ∈ reg) → cell < n * n →
      0 ≤ findRegionIndex sg cell ∧ (findRegionIndex sg cell).toNat < sg.length) ∧
    ((∀ reg ∈ sg, cell ∉ reg) →
      findRegionIndex sg cell = -1 ∧ ¬ 0 ≤ findRegionIndex sg cell) := by
  constructor
  · intro hcov hcell
    rcases findRegionIndexAux_covered cell sg 0 (hcov cell hcell) with ⟨k, hk, heq⟩
    unfold findRegionIndex
    rw [heq]
    simp only [Nat.zero_add]
    exact ⟨Int.natCast_nonneg k, by simpa using hk⟩
  · intro hnone
    have h := findRegionIndexAux_none cell sg 0 hnone
    unfold findRegionIndex
    rw [h]
    exact ⟨rfl, by decide⟩

/-- Witness for the safety claim: a covered cell of a partitioned 2×2 region
set gets an in-bounds index, and a cell outside every region gets `-1`. -/
theorem C10_findRegionIndex_safety_witness :
    (0 ≤ findRegionIndex [[0, 1], [2, 3]] 2 ∧
      (findRegionIndex [[0, 1], [2, 3]] 2).toNat < ([[0, 1], [2, 3]] : List (List Nat)).length) ∧
    (findRegionIndex [[0]] 5 = -1 ∧ ¬ 0 ≤ findRegionIndex [[0]] 5) := by
  constructor
  · exact (C10_findRegionIndex_safety 2 [[0, 1], [2, 3]] 2).1 (by decide) (by decide)
  · exact (C10_findRegionIndex_safety 1 [[0]] 5).2 (by decide)

theorem mem_allPositions (n i j : Nat) : (i, j) ∈ allPositions n ↔ i < n ∧ j < n := by
  simp [allPositions, List.mem_flatMap, Prod.ext_iff]

theorem mrvScan_no_empty (g : Grid) :
    ∀ (l : List (Nat × Nat)) (minP : Nat) (best : Option (Nat × Nat)),
      (∀ p ∈ l, cellM g.puzzle p.1 p.2 ≠ 0) → mrvScan g l minP best = (minP, best) := by
  intro l
  induction l with
  | nil => intro minP best _; rfl
  | cons p rest ih =>
    intro minP best h
    have hp : cellM g.puzzle p.1 p.2 ≠ 0 := h p (by simp)
    simp only [mrvScan, if_neg hp]
    exact ih minP best fun q hq => h q (List.mem_cons_of_mem p hq)

theorem mrvScan_spec (g : Grid) :
    ∀ (l : List (Nat × Nat)) (minP : Nat) (best : Option (Nat × Nat)),
      (∀ q, best = some q → cellM g.puzzle q.1 q.2 = 0 ∧ countCandidates g q.1 q.2 = minP) →
      (best = none → ∀ q ∈ l, cellM g.puzzle q.1 q.2 = 0 → countCandidates g q.1 q.2 < minP) →
      (∀ q, (mrvScan g l minP best).2 = some q →
        (q ∈ l ∨ best = some q) ∧ cellM g.puzzle q.1 q.2 = 0 ∧
          countCandidates g q.1 q.2 = (mrvScan g l minP best).1) ∧
      (mrvScan g l minP best).1 ≤ minP ∧
      (∀ p ∈ l, cellM g.puzzle p.1 p.2 = 0 →
        (mrvScan g l minP best).1 ≤ countCandidates g p.1 p.2) ∧
      ((mrvScan g l minP best).2 = none →
        best = none ∧ ∀ p ∈ l, cellM g.puzzle p.1 p.2 ≠ 0) := by
  intro l
  induction l with
  | nil =>
    intro minP best hbest _
    refine ⟨fun q hq => ⟨Or.inr hq, (hbest q hq).1, (hbest q hq).2⟩, Nat.le_refl _, ?_, ?_⟩
    · intro p hp; simp at hp
    · intro h; exact ⟨h, by simp⟩
  | cons p rest ih =>
    intro minP best hbest hminP
    by_cases hp : cellM g.puzzle p.1 p.2 = 0
    · by_cases hcnt : countCandidates g p.1 p.2 < minP
      · have hbest2 : ∀ q, (some p : Option (Nat × Nat)) = some q →
            cellM g.puzzle q.1 q.2 = 0 ∧ countCandidates g q.1 q.2 = countCandidates g p.1 p.2 := by
          intro q hq
          cases hq
          exact ⟨hp, rfl⟩
        have H := ih (countCandidates g p.1 p.2) (some p) hbest2 (by intro h; cases h)
        have heq : mrvScan g (p :: rest) minP best =
            mrvScan g rest (countCandidates g p.1 p.2) (some p) := by
          simp only [mrvScan, if_pos hp, if_pos hcnt]
        rw [heq]
        refine ⟨?_, ?_, ?_, ?_⟩
        · intro q hq
          rcases H.1 q hq with ⟨hmem, hcell, hcq⟩
          refine ⟨?_, hcell, hcq⟩
          rcases hmem with h | h
          · exact Or.inl (List.mem_cons_of_mem p h)
          · cases h; exact Or.inl (by simp)
        · exact Nat.le_trans H.2.1 (Nat.le_of_lt hcnt)
        · intro q hq hq0
          rcases List.mem_cons.mp hq with h | h
          · cases h; exact H.2.1
          · exact H.2.2.1 q h hq0
        · intro hnone
          exact absurd (H.2.2.2 hnone).1 (by simp)
      · have H := ih minP best hbest fun hb => by
          intro q hq hq0
          exact hminP hb q (List.mem_cons_of_mem p hq) hq0
        have heq : mrvScan g (p :: rest) minP best = mrvScan g rest minP best := by
          simp only [mrvScan, if_pos hp, if_neg hcnt]
        rw [heq]
        refine ⟨?_, H.2.1, ?_, ?_⟩
        · intro q hq
          rcases H.1 q hq with ⟨hmem, hcell, hcq⟩
          refine ⟨?_, hcell, hcq⟩
          rcases hmem with h | h
          · exact Or.inl (List.mem_cons_of_mem p h)
          · exact Or.inr h
        · intro q hq hq0
          rcases List.mem_cons.mp hq with h | h
          · cases h
            exact Nat.le_trans H.2.1 (Nat.le_of_not_lt hcnt)
          · exact H.2.2.1 q h hq0
        · intro hnone
          have hb := (H.2.2.2 hnone).1
          exact absurd (hminP hb p (by simp) hp) hcnt
    · have H := ih minP best hbest fun hb => by
        intro q hq hq0
        exact hminP hb q (List.mem_cons_of_mem p hq) hq0
      have heq : mrvScan g (p :: rest) minP best = mrvScan g rest minP best := by
        simp only [mrvScan, if_neg hp]
      rw [heq]
      refine ⟨?_, H.2.1, ?_, ?_⟩
      · intro q hq
        rcases H.1 q hq with ⟨hmem, hcell, hcq⟩
        refine ⟨?_, hcell, hcq⟩
        rcases hmem with h | h
        · exact Or.inl (List.mem_cons_of_mem p h)
        · exact Or.inr h
      · intro q hq hq0
        rcases List.mem_cons.mp hq with h | h
        · cases h; exact absurd hq0 hp
        · exact H.2.2.1 q h hq0
      · intro hnone
        have := H.2.2.2 hnone
        exact ⟨this.1, fun q hq => by
          rcases List.mem_cons.mp hq with h | h
          · cases h; exact hp
          · exact this.2 q h⟩

theorem countCandidates_le (g : Grid) (row col : Nat) :
    countCandidates g row col ≤ g.size := by
  unfold countCandidates
  calc (List.range g.size).countP (fun k => isValid g (k + 1) row col)
      ≤ (List.range g.size).length := List.countP_le_length _
    _ = g.size := List.length_range g.size

theorem findEmptyPositionWithMRV_spec (g : Grid) :
    (∀ p, findEmptyPositionWithMRV g = some p →
      p.1 < g.size ∧ p.2 < g.size ∧ cellM g.puzzle p.1 p.2 = 0 ∧
      ∀ i j, i < g.size → j < g.size → cellM g.puzzle i j = 0 →
        countCandidates g p.1 p.2 ≤ countCandidates g i j) ∧
    (findEmptyPositionWithMRV g = none ↔
      ∀ i j, i < g.size → j < g.size → cellM g.puzzle i j ≠ 0) := by
  have H := mrvScan_spec g (allPositions g.size) (g.size + 1) none
    (by intro q hq; cases hq)
    (by intro _ q _ _
        exact Nat.lt_succ_of_le (countCandidates_le g q.1 q.2))
  constructor
  · intro p hp
    rcases H.1 p hp with ⟨hmem, hcell, hcnt⟩
    have hpl : p ∈ allPositions g.size := by
      rcases hmem with h | h
      · exact h
      · cases h
    have hb := (mem_allPositions g.size p.1 p.2).mp (by simpa using hpl)
    refine ⟨hb.1, hb.2, hcell, ?_⟩
    intro i j hi hj hij
    rw [hcnt]
    exact H.2.2.1 (i, j) ((mem_allPositions g.size i j).mpr ⟨hi, hj⟩) hij
  · constructor
    · intro hnone i j hi hj
      exact (H.2.2.2 hnone).2 (i, j) ((mem_allPositions g.size i j).mpr ⟨hi, hj⟩)
    · intro hfull
      unfold findEmptyPositionWithMRV
      rw [mrvScan_no_empty g _ _ _ (by
        intro q hq
        have hb := (mem_allPositions g.size q.1 q.2).mp (by simpa using hq)
        exact hfull q.1 q.2 hb.1 hb.2)]

/-- C7: whenever the grid has an empty cell, `findEmptyPositionWithMRV`
returns an in-range empty cell whose candidate count is minimal among all
empty cells of the grid, and it returns no position exactly when the grid
has no empty cell. -/
theorem C7_mrv_picks_minimal (g : Grid) :
    (∀ p, findEmptyPositionWithMRV g = some p →
      p.1 < g.size ∧ p.2 < g.size ∧ cellM g.puzzle p.1 p.2 = 0 ∧
      ∀ i j, i < g.size → j < g.size → cellM g.puzzle i j = 0 →
        countCandidates g p.1 p.2 ≤ countCandidates g i j) ∧
    (findEmptyPositionWithMRV g = none ↔
      ∀ i j, i < g.size → j < g.size → cellM g.puzzle i j ≠ 0) :=
  findEmptyPositionWithMRV_spec g

/-- A concrete grid with three empty cells, used by witnesses: cell `(0,1)`
is empty with one candidate, the fewest among the empty cells. -/
def mrvWitnessGrid : Grid :=
  { size := 2
    boxWidth := 3
    boxHeight := 3
    puzzle := [[1, 0], [0, 0]]
    solution := [[0, 0], [0, 0]]
    subGrids := [[0, 1], [2, 3]]
    type := SudokuType.normal }

/-- Witness for the MRV claim at a concrete grid: the returned cell is empty
and has at most as many candidates as the other empty cells. -/
theorem C7_mrv_picks_minimal_witness :
    cellM mrvWitnessGrid.puzzle 0 1 = 0 ∧
    countCandidates mrvWitnessGrid 0 1 ≤ countCandidates mrvWitnessGrid 1 1 ∧
    countCandidates mrvWitnessGrid 0 1 ≤ countCandidates mrvWitnessGrid 1 0 := by
  have h := (C7_mrv_picks_minimal mrvWitnessGrid).1 (0, 1) rfl
  exact ⟨h.2.2.1,
    h.2.2.2 1 1 (by decide) (by decide) (by decide),
    h.2.2.2 1 0 (by decide) (by decide) (by decide)⟩

theorem isValid_true_iff (g : Grid) (num row col : Nat) :
    isValid g num row col = true ↔
      (∀ x < g.size, cellM g.puzzle row x ≠ num) ∧
      (∀ x < g.size, cellM g.puzzle x col ≠ num) ∧
      (∀ idx ∈ g.subGrids.getD (findRegionIndex g.subGrids (row * g.size + col)).toNat [],
        cellM g.puzzle (idx / g.size) (idx % g.size) ≠ num) := by
  simp [isValid, List.all_eq_true, List.mem_range, List.getD_eq_getElem?_getD, and_assoc]

theorem count_eq_one_of_nodup_mem {α : Type} [DecidableEq α] {l : List α} {a : α}
    (hn : l.Nodup) (ha : a ∈ l) : l.count a = 1 := by
  have h1 : l.count a ≤ 1 := List.nodup_iff_count_le_one.mp hn a
  have h2 : 0 < l.count a := List.count_pos_iff.mpr ha
  omega

theorem count_map_update {α : Type} [DecidableEq α] (l : List α) (f f2 : α → Nat) (a : α)
    (v : Nat) (hcount : l.count a = 1) (hagree : ∀ x ∈ l, x ≠ a → f2 x = f x) :
    (l.map f2).count v = (if f2 a = v then 1 else 0) + ((l.erase a).map f).count v ∧
    (l.map f).count v = (if f a = v then 1 else 0) + ((l.erase a).map f).count v := by
  have hmem : a ∈ l := List.count_pos_iff.mp (by omega)
  have hperm : l.Perm (a :: l.erase a) := List.perm_cons_erase hmem
  have herased : (l.erase a).count a = 0 := by
    have := List.count_erase_self a l
    omega
  have hnot : a ∉ l.erase a := by
    intro hmem2
    have := List.count_pos_iff.mpr hmem2
    omega
  have hagree2 : ∀ x ∈ l.erase a, f2 x = f x := by
    intro x hx
    exact hagree x (List.mem_of_mem_erase hx) (fun he => hnot (he ▸ hx))
  constructor
  · calc (l.map f2).count v = ((a :: l.erase a).map f2).count v :=
          (hperm.map f2).count_eq v
      _ = (if f2 a = v then 1 else 0) + ((l.erase a).map f2).count v := by
          simp only [List.map_cons, List.count_cons, beq_iff_eq]
          split <;> omega
      _ = (if f2 a = v then 1 else 0) + ((l.erase a).map f).count v := by
          rw [List.map_congr_left hagree2]
  · calc (l.map f).count v = ((a :: l.erase a).map f).count v :=
          (hperm.map f).count_eq v
      _ = (if f a = v then 1 else 0) + ((l.erase a).map f).count v := by
          simp only [List.map_cons, List.count_cons, beq_iff_eq]
          split <;> omega

theorem count_map_eq_zero_of_forall_ne {α : Type} (l : List α) (f : α → Nat) (v : Nat)
    (h : ∀ x ∈ l, f x ≠ v) : (l.map f).count v = 0 := by
  rw [List.count_eq_zero]
  intro hmem
  rcases List.mem_map.mp hmem with ⟨x, hx, hfx⟩
  exact h x hx hfx

theorem rowcol_div_mod (r c n : Nat) (hc : c < n) :
    (r * n + c) / n = r ∧ (r * n + c) % n = c := by
  have he : r * n + c = c + n * r := by ring
  constructor
  · rw [he, Nat.add_mul_div_left _ _ (by omega : 0 < n), Nat.div_eq_of_lt hc]
    omega
  · rw [he, Nat.add_mul_mod_self_left, Nat.mod_eq_of_lt hc]

theorem idx_eq_of_coords (idx n : Nat) : idx = n * (idx / n) + idx % n :=
  (Nat.div_add_mod idx n).symm

theorem findRegionIndexAux_getD (cell : Nat) :
    ∀ (sg : List (List Nat)), sg.flatten.Nodup →
      ∀ reg ∈ sg, cell ∈ reg →
        ∃ k, k < sg.length ∧ (∀ i, findRegionIndexAux sg cell i = ((i + k : Nat) : Int)) ∧
          sg.getD k [] = reg := by
  intro sg
  induction sg with
  | nil => intro _ reg hreg; simp at hreg
  | cons h rest ih =>
    intro hnd reg hreg hcell
    have hnd2 := List.nodup_append.mp (by simpa using hnd)
    by_cases hch : cell ∈ h
    · have hregh : reg = h := by
        rcases List.mem_cons.mp hreg with he | he
        · exact he
        · exfalso
          have hflat : cell ∈ rest.flatten := List.mem_flatten.mpr ⟨reg, he, hcell⟩
          exact hnd2.2.2 hch hflat
      exact ⟨0, by simp, fun i => by simp [findRegionIndexAux, hch], by simp [hregh]⟩
    · have hregr : reg ∈ rest := by
        rcases List.mem_cons.mp hreg with he | he
        · exact absurd (he ▸ hcell) hch
        · exact he
      rcases ih hnd2.2.1 reg hregr hcell with ⟨k, hk, haux, hgetD⟩
      refine ⟨k + 1, by simpa using Nat.succ_lt_succ hk, ?_, by simpa using hgetD⟩
      intro i
      simp only [findRegionIndexAux, if_neg hch]
      rw [haux (i + 1)]
      congr 1
      omega

theorem findRegionIndex_region (sg : List (List Nat)) (cell : Nat) (reg : List Nat)
    (hnd : sg.flatten.Nodup) (hreg : reg ∈ sg) (hcell : cell ∈ reg) :
    sg.getD (findRegionIndex sg cell).toNat [] = reg := by
  rcases findRegionIndexAux_getD cell sg hnd reg hreg hcell with ⟨k, _, haux, hgetD⟩
  unfold findRegionIndex
  rw [haux 0]
  simpa using hgetD

theorem region_nodup {sg : List (List Nat)} {reg : List Nat}
    (hnd : sg.flatten.Nodup) (hreg : reg ∈ sg) : reg.Nodup :=
  (List.sublist_flatten_of_mem hreg).nodup hnd

theorem consistent_place (g : Grid) (num r c : Nat)
    (hWF : WFm g.size g.puzzle) (hPart : Partition g.size g.subGrids)
    (hCons : Consistent g.size g.subGrids g.puzzle)
    (hr : r < g.size) (hc : c < g.size)
    (hv : isValid g num r c = true) (hnum : 1 ≤ num) :
    Consistent g.size g.subGrids (setCellM g.puzzle r c num) := by
  obtain ⟨hrowv, hcolv, hregv⟩ := (isValid_true_iff g num r c).mp hv
  have hself : cellM (setCellM g.puzzle r c num) r c = num :=
    cellM_setCellM_self num hWF hr hc
  intro v hv1
  refine ⟨?_, ?_, ?_⟩
  · intro r' hr'
    by_cases hrr : r' = r
    · subst hrr
      have hcnt1 : (List.range g.size).count c = 1 :=
        count_eq_one_of_nodup_mem (List.nodup_range g.size) (List.mem_range.mpr hc)
      have hagree : ∀ x ∈ List.range g.size, x ≠ c →
          cellM (setCellM g.puzzle r' c num) r' x = cellM g.puzzle r' x :=
        fun x _ hx => cellM_setCellM_ne num r' x (fun hh => hx hh.2)
      have hu := count_map_update (List.range g.size) (fun x => cellM g.puzzle r' x)
        (fun x => cellM (setCellM g.puzzle r' c num) r' x) c v hcnt1 hagree
      have hold := (hCons v hv1).1 r' hr'
      simp only [rowVals] at hold ⊢
      rw [hu.1]
      simp only [hself]
      by_cases hveq : num = v
      · subst hveq
        rw [if_pos rfl]
        have hzero : ((List.range g.size).map fun x => cellM g.puzzle r' x).count num = 0 :=
          count_map_eq_zero_of_forall_ne _ _ _
            (fun x hx => hrowv x (List.mem_range.mp hx))
        rw [hu.2] at hzero
        omega
      · rw [if_neg hveq]
        rw [hu.2] at hold
        omega
    · have heq : rowVals g.size (setCellM g.puzzle r c num) r' = rowVals g.size g.puzzle r' := by
        unfold rowVals
        exact List.map_congr_left fun x _ =>
          cellM_setCellM_ne num r' x (fun hh => hrr hh.1)
      rw [heq]
      exact (hCons v hv1).1 r' hr'
  · intro c' hc'
    by_cases hcc : c' = c
    · subst hcc
      have hcnt1 : (List.range g.size).count r = 1 :=
        count_eq_one_of_nodup_mem (List.nodup_range g.size) (List.mem_range.mpr hr)
      have hagree : ∀ x ∈ List.range g.size, x ≠ r →
          cellM (setCellM g.puzzle r c' num) x c' = cellM g.puzzle x c' :=
        fun x _ hx => cellM_setCellM_ne num x c' (fun hh => hx hh.1)
      have hu := count_map_update (List.range g.size) (fun x => cellM g.puzzle x c')
        (fun x => cellM (setCellM g.puzzle r c' num) x c') r v hcnt1 hagree
      have hold := (hCons v hv1).2.1 c' hc'
      simp only [colVals] at hold ⊢
      rw [hu.1]
      simp only [hself]
      by_cases hveq : num = v
      · subst hveq
        rw [if_pos rfl]
        have hzero : ((List.range g.size).map fun x => cellM g.puzzle x c').count num = 0 :=
          count_map_eq_zero_of_forall_ne _ _ _
            (fun x hx => hcolv x (List.mem_range.mp hx))
        rw [hu.2] at hzero
        omega
      · rw [if_neg hveq]
        rw [hu.2] at hold
        omega
    · have heq : colVals g.size (setCellM g.puzzle r c num) c' = colVals g.size g.puzzle c' := by
        unfold colVals
        exact List.map_congr_left fun x _ =>
          cellM_setCellM_ne num x c' (fun hh => hcc hh.2)
      rw [heq]
      exact (hCons v hv1).2.1 c' hc'
  · intro reg hreg
    by_cases hidx : r * g.size + c ∈ reg
    · have hfound : g.subGrids.getD (findRegionIndex g.subGrids (r * g.size + c)).toNat [] = reg :=
        findRegionIndex_region _ _ _ hPart.2.2.1 hreg hidx
      rw [hfound] at hregv
      have hcoords := rowcol_div_mod r c g.size hc
      have hcnt1 : reg.count (r * g.size + c) = 1 :=
        count_eq_one_of_nodup_mem (region_nodup hPart.2.2.1 hreg) hidx
      have hagree : ∀ idx ∈ reg, idx ≠ r * g.size + c →
          cellM (setCellM g.puzzle r c num) (idx / g.size) (idx % g.size) =
            cellM g.puzzle (idx / g.size) (idx % g.size) := by
        intro idx _ hne
        apply cellM_setCellM_ne
        rintro ⟨h1, h2⟩
        apply hne
        calc idx = g.size * (idx / g.size) + idx % g.size := idx_eq_of_coords idx g.size
          _ = r * g.size + c := by rw [h1, h2]; ring
      have hu := count_map_update reg
        (fun idx => cellM g.puzzle (idx / g.size) (idx % g.size))
        (fun idx => cellM (setCellM g.puzzle r c num) (idx / g.size) (idx % g.size))
        (r * g.size + c) v hcnt1 hagree
      have hold := (hCons v hv1).2.2 reg hreg
      simp only [regionVals] at hold ⊢
      rw [hu.1]
      simp only [hcoords.1, hcoords.2, hself]
      by_cases hveq : num = v
      · subst hveq
        rw [if_pos rfl]
        have hzero : (reg.map fun idx => cellM g.puzzle (idx / g.size) (idx % g.size)).count num = 0 :=
          count_map_eq_zero_of_forall_ne _ _ _ hregv
        rw [hu.2] at hzero
        omega
      · rw [if_neg hveq]
        rw [hu.2] at hold
        omega
    · have heq : regionVals g.size (setCellM g.puzzle r c num) reg =
          regionVals g.size g.puzzle reg := by
        unfold regionVals
        apply List.map_congr_left
        intro idx hmem
        apply cellM_setCellM_ne
        rintro ⟨h1, h2⟩
        apply hidx
        have : idx = r * g.size + c := by
          calc idx = g.size * (idx / g.size) + idx % g.size := idx_eq_of_coords idx g.size
            _ = r * g.size + c := by rw [h1, h2]; ring
        exact this ▸ hmem
      rw [heq]
      exact (hCons v hv1).2.2 reg hreg

theorem bounded_place (m : List (List Nat)) (n num r c : Nat) (hB : Bounded n m)
    (hnum : num ≤ n) : Bounded n (setCellM m r c num) := by
  intro r' hr' c' hc'
  by_cases h : r' = r ∧ c' = c
  · obtain ⟨h1, h2⟩ := h
    subst h1; subst h2
    by_cases hrl : r' < m.length
    · have : cellM (setCellM m r' c' num) r' c' = num ∨
          cellM (setCellM m r' c' num) r' c' = cellM m r' c' := by
        by_cases hcl : c' < (m.getD r' []).length
        · left
          unfold cellM setCellM
          rw [list_getD_set_eq _ _ _ _ hrl, list_getD_set_eq _ _ _ _ hcl]
        · right
          unfold cellM setCellM
          rw [list_getD_set_eq _ _ _ _ hrl, list_set_oob _ _ _ (by omega)]
      rcases this with h | h
      · omega
      · rw [h]; exact hB r' hr' c' hc'
    · unfold setCellM
      rw [list_set_oob _ _ _ (by omega)]
      exact hB r' hr' c' hc'
  · rw [cellM_setCellM_ne num r' c' h]
    exact hB r' hr' c' hc'

@[simp] theorem setPuzzle_size (g : Grid) (r c v : Nat) : (setPuzzle g r c v).size = g.size := rfl

@[simp] theorem setPuzzle_subGrids (g : Grid) (r c v : Nat) :
    (setPuzzle g r c v).subGrids = g.subGrids := rfl

@[simp] theorem setPuzzle_solution (g : Grid) (r c v : Nat) :
    (setPuzzle g r c v).solution = g.solution := rfl

@[simp] theorem setPuzzle_puzzle (g : Grid) (r c v : Nat) :
    (setPuzzle g r c v).puzzle = setCellM g.puzzle r c v := rfl

theorem setCellM_cancel (m : List (List Nat)) (n r c v : Nat) (hWF : WFm n m)
    (hr : r < n) (hc : c < n) (h0 : cellM m r c = 0) :
    setCellM (setCellM m r c v) r c 0 = m := by
  have hrl : r < m.length := by rw [hWF.1]; exact hr
  have hrow : (m.getD r []).length = n := hWF.2 _ (list_getD_mem m r [] hrl)
  have hcl : c < (m.getD r []).length := by rw [hrow]; exact hc
  unfold setCellM
  rw [list_getD_set_eq _ _ _ _ hrl, List.set_set, List.set_set]
  have h0' : (m.getD r []).getD c 0 = 0 := h0
  rw [← h0', list_set_getD_self _ _ _ hcl, list_set_getD_self _ _ _ hrl]

theorem setPuzzle_cancel (g : Grid) (r c v : Nat) (hWF : WFm g.size g.puzzle)
    (hr : r < g.size) (hc : c < g.size) (h0 : cellM g.puzzle r c = 0) :
    setPuzzle (setPuzzle g r c v) r c 0 = g := by
  show { g with puzzle := setCellM (setCellM g.puzzle r c v) r c 0 } = g
  rw [setCellM_cancel g.puzzle g.size r c v hWF hr hc h0]

theorem tryNums_frame (S : Grid → Nat → Bool × Grid × Nat) (row col : Nat)
    (hS : ∀ g2 t2, (S g2 t2).2.1.size = g2.size ∧ (S g2 t2).2.1.subGrids = g2.subGrids ∧
      (S g2 t2).2.1.solution = g2.solution) :
    ∀ (nums : List Nat) (g : Grid) (t : Nat),
      (tryNumsWith S row col g nums t).2.1.size = g.size ∧
      (tryNumsWith S row col g nums t).2.1.subGrids = g.subGrids ∧
      (tryNumsWith S row col g nums t).2.1.solution = g.solution := by
  intro nums
  induction nums with
  | nil => intro g t; exact ⟨rfl, rfl, rfl⟩
  | cons num rest ih =>
    intro g t
    by_cases hval : isValid g num row col
    · rcases hres : S (setPuzzle g row col num) t with ⟨b, g2, t2⟩
      have hfields := hS (setPuzzle g row col num) t
      rw [hres] at hfields
      cases b
      · have heq : tryNumsWith S row col g (num :: rest) t =
            tryNumsWith S row col (setPuzzle g2 row col 0) rest t2 := by
          simp only [tryNumsWith, if_pos hval, hres]
        rw [heq]
        have hi := ih (setPuzzle g2 row col 0) t2
        exact ⟨hi.1.trans hfields.1, hi.2.1.trans hfields.2.1, hi.2.2.trans hfields.2.2⟩
      · have heq : tryNumsWith S row col g (num :: rest) t = (true, g2, t2) := by
          simp only [tryNumsWith, if_pos hval, hres]
        rw [heq]
        exact hfields
    · have heq : tryNumsWith S row col g (num :: rest) t = tryNumsWith S row col g rest t := by
        simp only [tryNumsWith, if_neg hval]
      rw [heq]
      exact ih g t

theorem solveAux_frame (valueOrder : Nat → List Nat) (timedOut : Bool) :
    ∀ (fuel : Nat) (g : Grid) (t : Nat),
      (solveAux valueOrder timedOut fuel g t).2.1.size = g.size ∧
      (solveAux valueOrder timedOut fuel g t).2.1.subGrids = g.subGrids ∧
      (solveAux valueOrder timedOut fuel g t).2.1.solution = g.solution := by
  intro fuel
  induction fuel with
  | zero => intro g t; exact ⟨rfl, rfl, rfl⟩
  | succ fuel ih =>
    intro g t
    by_cases hto : timedOut
    · simp only [solveAux, if_pos hto]
      exact ⟨trivial, trivial, trivial⟩
    · rcases hmrv : findEmptyPositionWithMRV g with _ | p
      · simp only [solveAux, if_neg hto, hmrv]
        exact ⟨trivial, trivial, trivial⟩
      · have heq : solveAux valueOrder timedOut (fuel + 1) g t =
            tryNumsWith (solveAux valueOrder timedOut fuel) p.1 p.2 g (valueOrder t) (t + 1) := by
          simp only [solveAux, if_neg hto, hmrv]
        rw [heq]
        exact tryNums_frame _ p.1 p.2 (fun g2 t2 => ih g2 t2) (valueOrder t) g (t + 1)

theorem tryNums_restore (n : Nat) (S : Grid → Nat → Bool × Grid × Nat) (row col : Nat)
    (hrow : row < n) (hcol : col < n)
    (hS : ∀ g2 t2, g2.size = n → WFm n g2.puzzle → (S g2 t2).1 = false → (S g2 t2).2.1 = g2) :
    ∀ (nums : List Nat) (g : Grid) (t : Nat), g.size = n → WFm n g.puzzle →
      cellM g.puzzle row col = 0 →
      (tryNumsWith S row col g nums t).1 = false → (tryNumsWith S row col g nums t).2.1 = g := by
  intro nums
  induction nums with
  | nil => intro g t _ _ _ _; rfl
  | cons num rest ih =>
    intro g t hsz hWF h0 hfail
    by_cases hval : isValid g num row col
    · rcases hres : S (setPuzzle g row col num) t with ⟨b, g2, t2⟩
      cases b
      · have hg2 : g2 = setPuzzle g row col num := by
          have := hS (setPuzzle g row col num) t (by simpa using hsz)
            (by simpa using WFm_setCellM row col num (hsz ▸ hWF))
            (by rw [hres])
          rw [hres] at this
          exact this
        have heq : tryNumsWith S row col g (num :: rest) t =
            tryNumsWith S row col (setPuzzle g2 row col 0) rest t2 := by
          simp only [tryNumsWith, if_pos hval, hres]
        have hcancel : setPuzzle g2 row col 0 = g := by
          rw [hg2]
          exact setPuzzle_cancel g row col num (hsz ▸ hWF) (hsz ▸ hrow) (hsz ▸ hcol) h0
        rw [heq, hcancel] at hfail ⊢
        exact ih g t2 hsz hWF h0 hfail
      · have heq : tryNumsWith S row col g (num :: rest) t = (true, g2, t2) := by
          simp only [tryNumsWith, if_pos hval, hres]
        rw [heq] at hfail
        cases hfail
    · have heq : tryNumsWith S row col g (num :: rest) t = tryNumsWith S row col g rest t := by
        simp only [tryNumsWith, if_neg hval]
      rw [heq] at hfail ⊢
      exact ih g t hsz hWF h0 hfail

theorem solveAux_restore (valueOrder : Nat → List Nat) (timedOut : Bool) (n : Nat) :
    ∀ (fuel : Nat) (g : Grid) (t : Nat), g.size = n → WFm n g.puzzle →
      (solveAux valueOrder timedOut fuel g t).1 = false →
      (solveAux valueOrder timedOut fuel g t).2.1 = g := by
  intro fuel
  induction fuel with
  | zero => intro g t _ _ _; rfl
  | succ fuel ih =>
    intro g t hsz hWF hfail
    by_cases hto : timedOut
    · simp only [solveAux, if_pos hto]
    · rcases hmrv : findEmptyPositionWithMRV g with _ | p
      · have heq : solveAux valueOrder timedOut (fuel + 1) g t = (true, g, t) := by
          simp only [solveAux, if_neg hto, hmrv]
        rw [heq] at hfail
        cases hfail
      · have hfacts := (findEmptyPositionWithMRV_spec g).1 p hmrv
        have heq : solveAux valueOrder timedOut (fuel + 1) g t =
            tryNumsWith (solveAux valueOrder timedOut fuel) p.1 p.2 g (valueOrder t) (t + 1) := by
          simp only [solveAux, if_neg hto, hmrv]
        rw [heq] at hfail ⊢
        exact tryNums_restore n (solveAux valueOrder timedOut fuel) p.1 p.2
          (hsz ▸ hfacts.1) (hsz ▸ hfacts.2.1) (fun g2 t2 => ih g2 t2)
          (valueOrder t) g (t + 1) hsz hWF hfacts.2.2.1 hfail

/-- All the solver invariants bundled: fixed size and region set, a
well-formed puzzle matrix with values in `0..n`, and no duplicate placed
value in any row, column or region. -/
def GoodGrid (n : Nat) (sg : List (List Nat)) (g : Grid) : Prop :=
  g.size = n ∧ g.subGrids = sg ∧ WFm n g.puzzle ∧ Bounded n g.puzzle ∧
    Consistent n sg g.puzzle

theorem goodGrid_place (n : Nat) (sg : List (List Nat)) (hPart : Partition n sg)
    (g : Grid) (num row col : Nat) (hG : GoodGrid n sg g)
    (hrow : row < n) (hcol : col < n)
    (hval : isValid g num row col = true) (h1 : 1 ≤ num) (h2 : num ≤ n) :
    GoodGrid n sg (setPuzzle g row col num) := by
  obtain ⟨hsz, hsg, hWF, hB, hCons⟩ := hG
  refine ⟨by simpa using hsz, by simpa using hsg, ?_, ?_, ?_⟩
  · exact WFm_setCellM row col num hWF
  · exact bounded_place g.puzzle n num row col hB h2
  · have hWF2 : WFm g.size g.puzzle := by rw [hsz]; exact hWF
    have hPart2 : Partition g.size g.subGrids := by rw [hsz, hsg]; exact hPart
    have hCons2 : Consistent g.size g.subGrids g.puzzle := by rw [hsz, hsg]; exact hCons
    have h := consistent_place g num row col hWF2 hPart2 hCons2
      (by rw [hsz]; exact hrow) (by rw [hsz]; exact hcol) hval h1
    rw [hsz, hsg] at h
    exact h

theorem tryNums_sound (n : Nat) (sg : List (List Nat)) (hPart : Partition n sg)
    (S : Grid → Nat → Bool × Grid × Nat) (row col : Nat) (hrow : row < n) (hcol : col < n)
    (hSsound : ∀ g2 t2, GoodGrid n sg g2 → (S g2 t2).1 = true →
      GoodGrid n sg (S g2 t2).2.1 ∧ NoZeros n (S g2 t2).2.1.puzzle)
    (hSrestore : ∀ g2 t2, g2.size = n → WFm n g2.puzzle →
      (S g2 t2).1 = false → (S g2 t2).2.1 = g2) :
    ∀ (nums : List Nat) (g : Grid) (t : Nat), (∀ x ∈ nums, 1 ≤ x ∧ x ≤ n) →
      GoodGrid n sg g → cellM g.puzzle row col = 0 →
      (tryNumsWith S row col g nums t).1 = true →
      GoodGrid n sg (tryNumsWith S row col g nums t).2.1 ∧
        NoZeros n (tryNumsWith S row col g nums t).2.1.puzzle := by
  intro nums
  induction nums with
  | nil => intro g t _ _ _ h; cases h
  | cons num rest ih =>
    intro g t hnums hG h0 hsucc
    by_cases hval : isValid g num row col
    · rcases hres : S (setPuzzle g row col num) t with ⟨b, g2, t2⟩
      cases b
      · have hg2 : g2 = setPuzzle g row col num := by
          have h := hSrestore (setPuzzle g row col num) t (by simpa using hG.1)
            (by simpa using WFm_setCellM row col num hG.2.2.1) (by rw [hres])
          rw [hres] at h
          exact h
        have heq : tryNumsWith S row col g (num :: rest) t =
            tryNumsWith S row col (setPuzzle g2 row col 0) rest t2 := by
          simp only [tryNumsWith, if_pos hval, hres]
        have hcancel : setPuzzle g2 row col 0 = g := by
          rw [hg2]
          apply setPuzzle_cancel g row col num
          · rw [hG.1]; exact hG.2.2.1
          · rw [hG.1]; exact hrow
          · rw [hG.1]; exact hcol
          · exact h0
        rw [heq, hcancel] at hsucc ⊢
        exact ih g t2 (fun x hx => hnums x (List.mem_cons_of_mem _ hx)) hG h0 hsucc
      · have hplace := goodGrid_place n sg hPart g num row col hG hrow hcol hval
          (hnums num (by simp)).1 (hnums num (by simp)).2
        have heq : tryNumsWith S row col g (num :: rest) t = (true, g2, t2) := by
          simp only [tryNumsWith, if_pos hval, hres]
        rw [heq]
        have h := hSsound (setPuzzle g row col num) t hplace (by rw [hres])
        rw [hres] at h
        exact h
    · have heq : tryNumsWith S row col g (num :: rest) t = tryNumsWith S row col g rest t := by
        simp only [tryNumsWith, if_neg hval]
      rw [heq] at hsucc ⊢
      exact ih g t (fun x hx => hnums x (List.mem_cons_of_mem _ hx)) hG h0 hsucc

theorem solveAux_sound (valueOrder : Nat → List Nat) (timedOut : Bool) (n : Nat)
    (sg : List (List Nat)) (hPart : Partition n sg)
    (hord : ∀ t, ∀ x ∈ valueOrder t, 1 ≤ x ∧ x ≤ n) :
    ∀ (fuel : Nat) (g : Grid) (t : Nat), GoodGrid n sg g →
      (solveAux valueOrder timedOut fuel g t).1 = true →
      GoodGrid n sg (solveAux valueOrder timedOut fuel g t).2.1 ∧
        NoZeros n (solveAux valueOrder timedOut fuel g t).2.1.puzzle := by
  intro fuel
  induction fuel with
  | zero => intro g t _ h; cases h
  | succ fuel ih =>
    intro g t hG hsucc
    by_cases hto : timedOut
    · rw [show solveAux valueOrder timedOut (fuel + 1) g t = (false, g, t) by
        simp only [solveAux, if_pos hto]] at hsucc
      cases hsucc
    · rcases hmrv : findEmptyPositionWithMRV g with _ | p
      · have heq : solveAux valueOrder timedOut (fuel + 1) g t = (true, g, t) := by
          simp only [solveAux, if_neg hto, hmrv]
        rw [heq]
        refine ⟨hG, ?_⟩
        intro r hr c hc
        have hfull := ((findEmptyPositionWithMRV_spec g).2).mp hmrv
        exact hfull r c (by rw [hG.1]; exact hr) (by rw [hG.1]; exact hc)
      · have hfacts := (findEmptyPositionWithMRV_spec g).1 p hmrv
        have heq : solveAux valueOrder timedOut (fuel + 1) g t =
            tryNumsWith (solveAux valueOrder timedOut fuel) p.1 p.2 g (valueOrder t) (t + 1) := by
          simp only [solveAux, if_neg hto, hmrv]
        rw [heq] at hsucc ⊢
        exact tryNums_sound n sg hPart (solveAux valueOrder timedOut fuel) p.1 p.2
          (by rw [← hG.1]; exact hfacts.1) (by rw [← hG.1]; exact hfacts.2.1)
          (fun g2 t2 => ih g2 t2)
          (fun g2 t2 => solveAux_restore valueOrder timedOut n fuel g2 t2)
          (valueOrder t) g (t + 1) (hord t) hG hfacts.2.2.1 hsucc

theorem count_one_of_nodup_cover {l m : List Nat} (hl : l.Nodup) (hsub : ∀ x ∈ l, x ∈ m)
    (hm : m.Nodup) (hlen : m.length ≤ l.length) : ∀ v ∈ m, l.count v = 1 := by
  intro v hv
  have hperm : l.Perm m := (List.subperm_of_subset hl hsub).perm_of_length_le hlen
  rw [hperm.count_eq]
  exact List.count_eq_one_of_mem hm hv

theorem vals_one_to_n {n : Nat} {l : List Nat} (hlen : l.length = n)
    (hle1 : ∀ v, 1 ≤ v → l.count v ≤ 1) (hmem : ∀ x ∈ l, 1 ≤ x ∧ x ≤ n) :
    ∀ v, 1 ≤ v → v ≤ n → l.count v = 1 := by
  have hnd : l.Nodup := by
    rw [List.nodup_iff_count_le_one]
    intro a
    by_cases ha : 1 ≤ a
    · exact hle1 a ha
    · have h0 : a = 0 := by omega
      subst h0
      have : (0 : Nat) ∉ l := fun hin => by
        have := (hmem 0 hin).1
        omega
      have := List.count_eq_zero.mpr this
      omega
  have hsub : ∀ x ∈ l, x ∈ List.range' 1 n := by
    intro x hx
    rw [List.mem_range'_1]
    have := hmem x hx
    omega
  have hcnt := count_one_of_nodup_cover hnd hsub (List.nodup_range' 1 n)
    (by rw [List.length_range', hlen])
  intro v h1 h2
  exact hcnt v (List.mem_range'_1.mpr (by omega))

theorem rowVals_length (n : Nat) (m : List (List Nat)) (r : Nat) :
    (rowVals n m r).length = n := by
  simp [rowVals]

theorem colVals_length (n : Nat) (m : List (List Nat)) (c : Nat) :
    (colVals n m c).length = n := by
  simp [colVals]

theorem latin_of_goodGrid (n : Nat) (sg : List (List Nat)) (hPart : Partition n sg)
    (m : List (List Nat)) (hWF : WFm n m) (hB : Bounded n m)
    (hCons : Consistent n sg m) (hNZ : NoZeros n m) : LatinSquare n sg m := by
  constructor
  · intro v h1 h2
    refine ⟨?_, ?_, ?_⟩
    · intro r hr
      apply vals_one_to_n (rowVals_length n m r)
        (fun w hw => (hCons w hw).1 r hr) _ v h1 h2
      intro x hx
      rcases List.mem_map.mp hx with ⟨c, hc, hcell⟩
      rw [List.mem_range] at hc
      subst hcell
      exact ⟨Nat.one_le_iff_ne_zero.mpr (hNZ r hr c hc), hB r hr c hc⟩
    · intro c hc
      apply vals_one_to_n (colVals_length n m c)
        (fun w hw => (hCons w hw).2.1 c hc) _ v h1 h2
      intro x hx
      rcases List.mem_map.mp hx with ⟨r, hr, hcell⟩
      rw [List.mem_range] at hr
      subst hcell
      exact ⟨Nat.one_le_iff_ne_zero.mpr (hNZ r hr c hc), hB r hr c hc⟩
    · intro reg hreg
      have hlen : (regionVals n m reg).length = n := by
        simp [regionVals, hPart.2.1 reg hreg]
      apply vals_one_to_n hlen (fun w hw => (hCons w hw).2.2 reg hreg) _ v h1 h2
      intro x hx
      rcases List.mem_map.mp hx with ⟨idx, hidx, hcell⟩
      have hidxlt : idx < n * n := hPart.2.2.2.1 idx (List.mem_flatten.mpr ⟨reg, hreg, hidx⟩)
      have hrlt : idx / n < n := by
        apply Nat.div_lt_of_lt_mul
        omega
      have hclt : idx % n < n := Nat.mod_lt idx (by omega)
      subst hcell
      exact ⟨Nat.one_le_iff_ne_zero.mpr (hNZ _ hrlt _ hclt), hB _ hrlt _ hclt⟩
  · exact hNZ

/-- C8: after a call to `solve` — whether it returns success or failure — the
grid's region set `SubGrids` is exactly its value before the call: the solver
and its legality check only read the region set, never write it (every update
in the search touches the puzzle matrix only). -/
theorem C8_solve_preserves_regions (g : Grid) (valueOrder : Nat → List Nat)
    (timedOut : Bool) (t : Nat) :
    (solve g valueOrder timedOut t).2.1.subGrids = g.subGrids :=
  (solveAux_frame valueOrder timedOut (g.size * g.size + 1) g t).2.1

/-- A solvable empty 2×2 grid with row regions, for the deadline claim. -/
def solvableGrid2 : Grid :=
  { size := 2
    boxWidth := 3
    boxHeight := 3
    puzzle := [[0, 0], [0, 0]]
    solution := [[0, 0], [0, 0]]
    subGrids := [[0, 1], [2, 3]]
    type := SudokuType.normal }

/-- An unsolvable 2×2 grid (both empty cells have zero candidates), for the
deadline claim. -/
def unsolvableGrid2 : Grid :=
  { size := 2
    boxWidth := 3
    boxHeight := 3
    puzzle := [[0, 1], [2, 0]]
    solution := [[0, 0], [0, 0]]
    subGrids := [[0, 1], [2, 3]]
    type := SudokuType.normal }

/-- The candidate order `[1, 2]` at every node, for the deadline claim. -/
def valueOrder2 : Nat → List Nat := fun _ => [1, 2]

/-- C5 as stated is false: a run that fails only because the deadline elapsed
(the grid is solvable — the same call with time left returns `true`) yields
exactly the same result value `false` as a run that exhausts all candidates at
the root on an unsolvable grid, so the caller cannot distinguish the timeout
outcome from the no-solution outcome. -/
theorem C5_counterexample_timeout_indistinguishable :
    (solve solvableGrid2 valueOrder2 true 0).1 =
      (solve unsolvableGrid2 valueOrder2 false 0).1 ∧
    (solve solvableGrid2 valueOrder2 true 0).1 = false ∧
    (solve solvableGrid2 valueOrder2 false 0).1 = true := by
  refine ⟨?_, ?_, ?_⟩ <;> decide

/-- C5 amended: when the deadline has been exceeded the search aborts and
returns `false`, the same boolean that reports exhaustion of all candidates,
so the two failure modes are not distinct results; `Generate` treats both as
a failed attempt and retries. -/
theorem C5_timed_out_solve_false (valueOrder : Nat → List Nat) (fuel : Nat)
    (g : Grid) (t : Nat) :
    (solveAux valueOrder true fuel g t).1 = false := by
  cases fuel with
  | zero => rfl
  | succ fuel => simp [solveAux]

theorem coord_lt {a b n : Nat} (ha : a < n) (hb : b < n) : a * n + b < n * n := by
  calc a * n + b < a * n + n := by omega
    _ = (a + 1) * n := by ring
    _ ≤ n * n := Nat.mul_le_mul_right n ha

theorem mem_singleton_ite {P : Prop} [Decidable P] (x b : Nat) :
    (b ∈ if P then [x] else []) ↔ P ∧ b = x := by
  split <;> simp_all

theorem mem_neighbors_iff (n a b : Nat) :
    b ∈ neighbors n a ↔
      ((1 ≤ a / n ∧ a / n - 1 < n ∧ a % n < n) ∧ b = (a / n - 1) * n + a % n ∨
       ((a / n + 1 < n ∧ a % n < n) ∧ b = (a / n + 1) * n + a % n) ∨
       ((a / n < n ∧ 1 ≤ a % n ∧ a % n - 1 < n) ∧ b = a / n * n + (a % n - 1)) ∨
       ((a / n < n ∧ a % n + 1 < n) ∧ b = a / n * n + (a % n + 1))) := by
  simp only [neighbors, List.mem_append, mem_singleton_ite, or_assoc]

theorem mem_neighbors_lt {n a b : Nat} (h : b ∈ neighbors n a) : b < n * n := by
  rw [mem_neighbors_iff] at h
  rcases h with ⟨⟨h1, h2, h3⟩, h4⟩ | ⟨⟨h1, h2⟩, h3⟩ | ⟨⟨h1, h2, h2b⟩, h4⟩ | ⟨⟨h1, h2⟩, h3⟩
  · exact h4 ▸ coord_lt h2 h3
  · exact h3 ▸ coord_lt h1 h2
  · exact h4 ▸ coord_lt h1 (by omega)
  · exact h3 ▸ coord_lt h1 h2

theorem mem_neighbors_symm {n a b : Nat} (ha : a < n * n) (h : b ∈ neighbors n a) :
    a ∈ neighbors n b := by
  have hn : 0 < n := by
    rcases Nat.eq_zero_or_pos n with h0 | h0
    · subst h0; simp at ha
    · exact h0
  have hr : a / n < n := Nat.div_lt_of_lt_mul ha
  have hc : a % n < n := Nat.mod_lt a hn
  have hdm : a = n * (a / n) + a % n := (Nat.div_add_mod a n).symm
  have hdm2 : a = a / n * n + a % n := (Nat.div_add_mod' a n).symm
  rw [mem_neighbors_iff] at h
  rw [mem_neighbors_iff]
  rcases h with ⟨⟨h1, h2, h3⟩, h4⟩ | ⟨⟨h1, h2⟩, h3⟩ | ⟨⟨h1, h2, h2b⟩, h4⟩ | ⟨⟨h1, h2⟩, h3⟩
  · subst h4
    have hco := rowcol_div_mod (a / n - 1) (a % n) n h3
    rw [hco.1, hco.2]
    refine Or.inr (Or.inl ⟨⟨?_, hc⟩, ?_⟩)
    · rw [Nat.sub_add_cancel h1]; exact hr
    · rw [Nat.sub_add_cancel h1]; exact hdm2
  · subst h3
    have hco := rowcol_div_mod (a / n + 1) (a % n) n h2
    rw [hco.1, hco.2]
    refine Or.inl ⟨⟨Nat.le_add_left 1 (a / n), ?_, hc⟩, ?_⟩
    · rw [Nat.add_sub_cancel]; exact hr
    · rw [Nat.add_sub_cancel]; exact hdm2
  · subst h4
    have hco := rowcol_div_mod (a / n) (a % n - 1) n (Nat.lt_of_le_of_lt (Nat.sub_le _ _) hc)
    rw [hco.1, hco.2]
    refine Or.inr (Or.inr (Or.inr ⟨⟨h1, ?_⟩, ?_⟩))
    · rw [Nat.sub_add_cancel h2]; exact hc
    · rw [Nat.sub_add_cancel h2]; exact hdm2
  · subst h3
    have hco := rowcol_div_mod (a / n) (a % n + 1) n h2
    rw [hco.1, hco.2]
    refine Or.inr (Or.inr (Or.inl ⟨⟨h1, Nat.le_add_left 1 (a % n), ?_⟩, ?_⟩))
    · rw [Nat.add_sub_cancel]; exact hc
    · rw [Nat.add_sub_cancel]; exact hdm2

/-- The shape in which the growth loop builds a region: a seed cell followed
by cells each 4-adjacent to an earlier cell of the region. -/
inductive Grown (n : Nat) : List Nat → Prop where
  | seed (c : Nat) : Grown n [c]
  | grow (R : List Nat) (next : Nat) : Grown n R →
      (∃ cell ∈ R, next ∈ neighbors n cell) → Grown n (R ++ [next])

/-- Internal 4-connectivity of a region, the spec's property: between any two
cells of the region there is a path of 4-adjacent steps staying inside the
region. -/
def RegionConnected (n : Nat) (R : List Nat) : Prop :=
  ∀ a ∈ R, ∀ b ∈ R,
    Relation.ReflTransGen (fun x y => x ∈ R ∧ y ∈ R ∧ y ∈ neighbors n x) a b

theorem regionStep_symm {n : Nat} {R : List Nat} (hbound : ∀ x ∈ R, x < n * n) :
    Symmetric (fun x y => x ∈ R ∧ y ∈ R ∧ y ∈ neighbors n x) := by
  intro x y ⟨hx, hy, hadj⟩
  exact ⟨hy, hx, mem_neighbors_symm (hbound x hx) hadj⟩

theorem grown_connected (n : Nat) (R : List Nat) (hG : Grown n R)
    (hbound : ∀ x ∈ R, x < n * n) : RegionConnected n R := by
  induction hG with
  | seed c =>
    intro a ha b hb
    simp at ha hb
    subst ha; subst hb
    exact Relation.ReflTransGen.refl
  | grow R next hR hadj ih =>
    have hboundR : ∀ x ∈ R, x < n * n := fun x hx => hbound x (by simp [hx])
    have hmono : ∀ a b, (fun x y => x ∈ R ∧ y ∈ R ∧ y ∈ neighbors n x) a b →
        (fun x y => x ∈ R ++ [next] ∧ y ∈ R ++ [next] ∧ y ∈ neighbors n x) a b := by
      intro a b ⟨ha, hb, hab⟩
      exact ⟨by simp [ha], by simp [hb], hab⟩
    have hlift : ∀ a ∈ R, ∀ b ∈ R,
        Relation.ReflTransGen
          (fun x y => x ∈ R ++ [next] ∧ y ∈ R ++ [next] ∧ y ∈ neighbors n x) a b := by
      intro a ha b hb
      exact Relation.ReflTransGen.mono hmono (ih hboundR a ha b hb)
    rcases hadj with ⟨cell, hcell, hnext⟩
    have hcellnext : Relation.ReflTransGen
        (fun x y => x ∈ R ++ [next] ∧ y ∈ R ++ [next] ∧ y ∈ neighbors n x) cell next :=
      Relation.ReflTransGen.single ⟨by simp [hcell], by simp, hnext⟩
    have hsymRT := Relation.ReflTransGen.symmetric (regionStep_symm (n := n) hbound)
    intro a ha b hb
    rcases List.mem_append.mp ha with ha2 | ha2
    · rcases List.mem_append.mp hb with hb2 | hb2
      · exact hlift a ha2 b hb2
      · have hbn : b = next := by simpa using hb2
        subst hbn
        exact (hlift a ha2 cell hcell).trans hcellnext
    · have han : a = next := by simpa using ha2
      rcases List.mem_append.mp hb with hb2 | hb2
      · rw [han]
        exact hsymRT ((hlift b hb2 cell hcell).trans hcellnext)
      · have hbn : b = next := by simpa using hb2
        rw [han, hbn]

theorem growRegion_sound (n : Nat) (pick : Nat → Nat) :
    ∀ (fuel : Nat) (region used : List Nat) (t : Nat) (R U : List Nat) (t2 : Nat),
      growRegion n pick fuel region used t = (some (R, U), t2) →
      region.length ≤ n → used.Nodup → (∀ x ∈ region, x ∈ used) →
      (∀ x ∈ region, x < n * n) → Grown n region →
      R.length = n ∧ U.Nodup ∧ (∀ x ∈ R, x ∈ U) ∧ (∀ x ∈ R, x < n * n) ∧
        Grown n R ∧ ∃ d, R = region ++ d ∧ U.Perm (d ++ used) := by
  intro fuel
  induction fuel with
  | zero =>
    intro region used t R U t2 hrun hle hnd hsub hbound hG
    by_cases hlt : region.length < n
    · simp only [growRegion, if_pos hlt] at hrun
      simp at hrun
    · simp only [growRegion, if_neg hlt, Prod.mk.injEq, Option.some.injEq] at hrun
      obtain ⟨⟨hR, hU⟩, ht⟩ := hrun
      subst hR; subst hU
      exact ⟨by omega, hnd, hsub, hbound, hG, [], by simp, by simpa using List.Perm.refl used⟩
  | succ fuel ih =>
    intro region used t R U t2 hrun hle hnd hsub hbound hG
    by_cases hlt : region.length < n
    · simp only [growRegion, if_pos hlt] at hrun
      rcases hcand : (region.flatMap fun cell =>
          (neighbors n cell).filter fun nb => !(used.contains nb)) with _ | ⟨c0, crest⟩
      · rw [hcand] at hrun
        simp at hrun
      · rw [hcand] at hrun
        have hlen0 : ¬ (c0 :: crest).length = 0 := by simp
        simp only [if_neg hlen0] at hrun
        have hnextmem : (c0 :: crest).getD (pick t % (c0 :: crest).length) 0 ∈ c0 :: crest :=
          list_getD_mem _ _ 0 (Nat.mod_lt _ (by simp))
        have hnextc : ∃ cell ∈ region,
            (c0 :: crest).getD (pick t % (c0 :: crest).length) 0 ∈ neighbors n cell ∧
            (c0 :: crest).getD (pick t % (c0 :: crest).length) 0 ∉ used := by
          have hmem2 : (c0 :: crest).getD (pick t % (c0 :: crest).length) 0 ∈
              region.flatMap fun cell =>
                (neighbors n cell).filter fun nb => !(used.contains nb) := by
            rw [hcand]; exact hnextmem
          rcases List.mem_flatMap.mp hmem2 with ⟨cell, hcell, hmem⟩
          have hf := List.mem_filter.mp hmem
          exact ⟨cell, hcell, hf.1, by simpa using hf.2⟩
        rcases hnextc with ⟨cell, hcell, hadj, hnotused⟩
        have hrec := ih (region ++ [(c0 :: crest).getD (pick t % (c0 :: crest).length) 0])
          ((c0 :: crest).getD (pick t % (c0 :: crest).length) 0 :: used) (t + 1) R U t2 hrun
          (by simp only [List.length_append, List.length_cons, List.length_nil]; omega)
          (List.nodup_cons.mpr ⟨hnotused, hnd⟩)
          (by
            intro x hx
            rcases List.mem_append.mp hx with h | h
            · exact List.mem_cons_of_mem _ (hsub x h)
            · have hx2 : x = (c0 :: crest).getD (pick t % (c0 :: crest).length) 0 := by
                simpa using h
              rw [hx2]
              exact List.mem_cons_self _ _)
          (by
            intro x hx
            rcases List.mem_append.mp hx with h | h
            · exact hbound x h
            · have hx2 : x = (c0 :: crest).getD (pick t % (c0 :: crest).length) 0 := by
                simpa using h
              rw [hx2]
              exact mem_neighbors_lt hadj)
          (Grown.grow region _ hG ⟨cell, hcell, hadj⟩)
        obtain ⟨hlen, hUnd, hRU, hRb, hGR, d2, hRd, hUperm⟩ := hrec
        refine ⟨hlen, hUnd, hRU, hRb, hGR,
          (c0 :: crest).getD (pick t % (c0 :: crest).length) 0 :: d2, ?_, ?_⟩
        · rw [hRd, List.append_assoc]
          rfl
        · exact hUperm.trans List.perm_middle
    · simp only [growRegion, if_neg hlt, Prod.mk.injEq, Option.some.injEq] at hrun
      obtain ⟨⟨hR, hU⟩, ht⟩ := hrun
      subst hR; subst hU
      exact ⟨by omega, hnd, hsub, hbound, hG, [], by simp, by simpa using List.Perm.refl used⟩

theorem buildRegions_sound (n : Nat) (pick : Nat → Nat) :
    ∀ (k : Nat) (acc : List (List Nat)) (used : List Nat) (t : Nat)
      (regions : List (List Nat)) (U : List Nat) (t2 : Nat),
      buildRegions n pick k acc used t = (some (regions, U), t2) →
      k ≤ n → used.Nodup → used.Perm acc.flatten →
      (∀ reg ∈ acc, reg.length = n ∧ Grown n reg ∧ ∀ x ∈ reg, x < n * n) →
      regions.length = acc.length + k ∧ U.Nodup ∧ U.Perm regions.flatten ∧
        ∀ reg ∈ regions, reg.length = n ∧ Grown n reg ∧ ∀ x ∈ reg, x < n * n := by
  intro k
  induction k with
  | zero =>
    intro acc used t regions U t2 hrun _ hnd hperm hprops
    simp only [buildRegions, Prod.mk.injEq, Option.some.injEq] at hrun
    obtain ⟨⟨hR, hU⟩, ht⟩ := hrun
    subst hR; subst hU
    exact ⟨by simp, hnd, hperm, hprops⟩
  | succ k ih =>
    intro acc used t regions U t2 hrun hk hnd hperm hprops
    have hn1 : 1 ≤ n := by omega
    by_cases hav : ((List.range (n * n)).filter fun i => !(used.contains i)).length = 0
    · simp only [buildRegions, if_pos hav] at hrun
      simp at hrun
    · simp only [buildRegions, if_neg hav] at hrun
      have hstartmem : ((List.range (n * n)).filter fun i => !(used.contains i)).getD
          (pick t % ((List.range (n * n)).filter fun i => !(used.contains i)).length) 0 ∈
          (List.range (n * n)).filter fun i => !(used.contains i) :=
        list_getD_mem _ _ 0 (Nat.mod_lt _ (by omega))
      have hstartf := List.mem_filter.mp hstartmem
      have hstartlt : ((List.range (n * n)).filter fun i => !(used.contains i)).getD
          (pick t % ((List.range (n * n)).filter fun i => !(used.contains i)).length) 0 <
          n * n := List.mem_range.mp hstartf.1
      have hstartnot : ((List.range (n * n)).filter fun i => !(used.contains i)).getD
          (pick t % ((List.range (n * n)).filter fun i => !(used.contains i)).length) 0 ∉
          used := by simpa using hstartf.2
      rcases hgrow : growRegion n pick n
          [((List.range (n * n)).filter fun i => !(used.contains i)).getD
            (pick t % ((List.range (n * n)).filter fun i => !(used.contains i)).length) 0]
          (((List.range (n * n)).filter fun i => !(used.contains i)).getD
            (pick t % ((List.range (n * n)).filter fun i => !(used.contains i)).length) 0 ::
            used) (t + 1) with ⟨res, t3⟩
      rw [hgrow] at hrun
      rcases res with _ | ⟨reg, used3⟩
      · simp at hrun
      · have hgs := growRegion_sound n pick n _ _ (t + 1) reg used3 t3 hgrow
          (by simpa using hn1)
          (List.nodup_cons.mpr ⟨hstartnot, hnd⟩)
          (by
            intro x hx
            have hx2 := List.mem_singleton.mp hx
            rw [hx2]
            exact List.mem_cons_self _ _)
          (by
            intro x hx
            have hx2 := List.mem_singleton.mp hx
            rw [hx2]
            exact hstartlt)
          (Grown.seed _)
        obtain ⟨hreglen, hu3nd, hregsub, hregb, hregG, d2, hregd, hu3perm⟩ := hgs
        have hrec := ih (acc ++ [reg]) used3 t3 regions U t2 hrun (by omega) hu3nd
          (by
            have h1 : used3.Perm (reg ++ used) := by
              rw [hregd]
              exact hu3perm.trans List.perm_middle
            have h2 : used3.Perm (acc.flatten ++ reg) :=
              (h1.trans (List.Perm.append_left reg hperm)).trans List.perm_append_comm
            simpa using h2)
          (by
            intro reg2 hreg2
            rcases List.mem_append.mp hreg2 with h | h
            · exact hprops reg2 h
            · have h2 := List.mem_singleton.mp h
              rw [h2]
              exact ⟨hreglen, hregG, hregb⟩)
        obtain ⟨hlen2, hUnd2, hUperm2, hprops2⟩ := hrec
        refine ⟨by simp at hlen2; omega, hUnd2, hUperm2, hprops2⟩

theorem tryJigsawAttempt_sound (n : Nat) (pick : Nat → Nat) (t : Nat)
    (regions : List (List Nat)) (t2 : Nat)
    (hrun : tryJigsawAttempt n pick t = (some regions, t2)) :
    Partition n regions ∧ ∀ reg ∈ regions, reg.length = n ∧ RegionConnected n reg := by
  unfold tryJigsawAttempt at hrun
  rcases hbuild : buildRegions n pick n [] [] t with ⟨res, t3⟩
  rw [hbuild] at hrun
  rcases res with _ | ⟨rs, U⟩
  · simp at hrun
  · have hbs := buildRegions_sound n pick n [] [] t rs U t3 hbuild (Nat.le_refl n)
      List.nodup_nil (by simp) (by simp)
    obtain ⟨hlen, hUnd, hUperm, hprops⟩ := hbs
    by_cases hcard : U.length = n * n
    · simp only [if_pos hcard, Prod.mk.injEq, Option.some.injEq] at hrun
      obtain ⟨hR, ht⟩ := hrun
      rw [← hR]
      have hflatnd : rs.flatten.Nodup := hUperm.nodup_iff.mp hUnd
      have hflatlen : rs.flatten.length = n * n := by
        rw [← hUperm.length_eq]
        exact hcard
      have hflatsub : ∀ x ∈ rs.flatten, x < n * n := by
        intro x hx
        rcases List.mem_flatten.mp hx with ⟨reg, hreg, hxr⟩
        exact (hprops reg hreg).2.2 x hxr
      have hcover : ∀ c < n * n, c ∈ rs.flatten := by
        have hsub2 : ∀ x ∈ rs.flatten, x ∈ List.range (n * n) := by
          intro x hx
          exact List.mem_range.mpr (hflatsub x hx)
        have hperm2 : rs.flatten.Perm (List.range (n * n)) :=
          (List.subperm_of_subset hflatnd hsub2).perm_of_length_le
            (by rw [List.length_range, hflatlen])
        intro c hc
        exact hperm2.mem_iff.mpr (List.mem_range.mpr hc)
      refine ⟨⟨by simpa using hlen, fun reg hreg => (hprops reg hreg).1, hflatnd,
        hflatsub, hcover⟩, ?_⟩
      intro reg hreg
      exact ⟨(hprops reg hreg).1,
        grown_connected n reg (hprops reg hreg).2.1 (hprops reg hreg).2.2⟩
    · simp only [if_neg hcard] at hrun
      simp at hrun

theorem generateJigsawRegionsSerial_sound (n : Nat) (pick : Nat → Nat) :
    ∀ (attempts t : Nat) (regions : List (List Nat)) (t2 : Nat),
      generateJigsawRegionsSerial n pick attempts t = (some regions, t2) →
      Partition n regions ∧ ∀ reg ∈ regions, reg.length = n ∧ RegionConnected n reg := by
  intro attempts
  induction attempts with
  | zero =>
    intro t regions t2 hrun
    simp [generateJigsawRegionsSerial] at hrun
  | succ attempts ih =>
    intro t regions t2 hrun
    rcases htry : tryJigsawAttempt n pick t with ⟨res, t3⟩
    simp only [generateJigsawRegionsSerial, htry] at hrun
    rcases res with _ | R
    · exact ih t3 regions t2 hrun
    · simp only [Prod.mk.injEq, Option.some.injEq] at hrun
      obtain ⟨hR, ht⟩ := hrun
      rw [← hR]
      exact tryJigsawAttempt_sound n pick t R t3 htry

/-- C2: every region set returned by the jigsaw synthesizer consists of
exactly `size` regions of exactly `size` distinct cells each, pairwise
disjoint (no cell index repeats across the flattened region list), whose
union is exactly the `size*size` cells of the grid, and each region is
internally connected under 4-neighbour adjacency; an attempt is accepted
only when all `size` regions are fully grown and the used-cell set equals
the whole grid, which is what these conclusions express. -/
theorem C2_jigsaw_regions_sound (n : Nat) (pick : Nat → Nat) (attempts t : Nat)
    (regions : List (List Nat)) (t2 : Nat)
    (hrun : generateJigsawRegionsSerial n pick attempts t = (some regions, t2)) :
    regions.length = n ∧ (∀ reg ∈ regions, reg.length = n) ∧
    regions.flatten.Nodup ∧ (∀ c ∈ regions.flatten, c < n * n) ∧
    (∀ c < n * n, c ∈ regions.flatten) ∧
    ∀ reg ∈ regions, RegionConnected n reg := by
  have h := generateJigsawRegionsSerial_sound n pick attempts t regions t2 hrun
  exact ⟨h.1.1, h.1.2.1, h.1.2.2.1, h.1.2.2.2.1, h.1.2.2.2.2,
    fun reg hreg => (h.2 reg hreg).2⟩

/-- The random draws steering the 2×2 jigsaw witness run. -/
def jigsawPick2 : Nat → Nat := fun t => if t = 1 then 1 else 0

/-- Witness for the jigsaw claim: a concrete 2×2 synthesis run succeeds and
all the claimed properties hold for its region set. -/
theorem C2_jigsaw_regions_sound_witness :
    ([[0, 1], [2, 3]] : List (List Nat)).length = 2 ∧
    (∀ reg ∈ ([[0, 1], [2, 3]] : List (List Nat)), reg.length = 2) ∧
    ([[0, 1], [2, 3]] : List (List Nat)).flatten.Nodup ∧
    (∀ c ∈ ([[0, 1], [2, 3]] : List (List Nat)).flatten, c < 2 * 2) ∧
    (∀ c < 2 * 2, c ∈ ([[0, 1], [2, 3]] : List (List Nat)).flatten) ∧
    ∀ reg ∈ ([[0, 1], [2, 3]] : List (List Nat)), RegionConnected 2 reg :=
  C2_jigsaw_regions_sound 2 jigsawPick2 1 0 [[0, 1], [2, 3]] 4 rfl

theorem carve_fold_fields (n0 : Nat) :
    ∀ (l : List Nat) (g : Grid),
      (l.foldl (fun acc idx => setPuzzle acc (idx / n0) (idx % n0) 0) g).size = g.size ∧
      (l.foldl (fun acc idx => setPuzzle acc (idx / n0) (idx % n0) 0) g).subGrids = g.subGrids ∧
      (l.foldl (fun acc idx => setPuzzle acc (idx / n0) (idx % n0) 0) g).solution = g.solution := by
  intro l
  induction l with
  | nil => intro g; exact ⟨rfl, rfl, rfl⟩
  | cons idx rest ih =>
    intro g
    have h := ih (setPuzzle g (idx / n0) (idx % n0) 0)
    simpa using h

theorem carve_fold_WF (n0 : Nat) {n : Nat} :
    ∀ (l : List Nat) (g : Grid), WFm n g.puzzle →
      WFm n (l.foldl (fun acc idx => setPuzzle acc (idx / n0) (idx % n0) 0) g).puzzle := by
  intro l
  induction l with
  | nil => intro g h; exact h
  | cons idx rest ih =>
    intro g h
    exact ih (setPuzzle g (idx / n0) (idx % n0) 0) (WFm_setCellM _ _ _ h)

theorem carve_fold_cell (n0 : Nat) :
    ∀ (l : List Nat) (g : Grid) (r c : Nat), r < n0 → c < n0 → WFm n0 g.puzzle →
      cellM (l.foldl (fun acc idx => setPuzzle acc (idx / n0) (idx % n0) 0) g).puzzle r c =
        if r * n0 + c ∈ l then 0 else cellM g.puzzle r c := by
  intro l
  induction l with
  | nil => intro g r c _ _ _; simp
  | cons idx rest ih =>
    intro g r c hr hc hWF
    have hstep := ih (setPuzzle g (idx / n0) (idx % n0) 0) r c hr hc (WFm_setCellM _ _ _ hWF)
    simp only [List.foldl_cons] at *
    rw [hstep]
    by_cases hmem : r * n0 + c ∈ rest
    · simp [hmem]
    · by_cases hidx : idx = r * n0 + c
      · have hco := rowcol_div_mod r c n0 hc
        have hcell : cellM (setPuzzle g (idx / n0) (idx % n0) 0).puzzle r c = 0 := by
          rw [hidx, hco.1, hco.2]
          exact cellM_setCellM_self 0 hWF hr hc
        rw [if_neg hmem, hcell]
        simp [hidx]
    
      · have hne : ¬(r = idx / n0 ∧ c = idx % n0) := by
          rintro ⟨h1, h2⟩
          apply hidx
          calc idx = n0 * (idx / n0) + idx % n0 := idx_eq_of_coords idx n0
            _ = r * n0 + c := by rw [← h1, ← h2]; ring
        have hcell : cellM (setPuzzle g (idx / n0) (idx % n0) 0).puzzle r c =
            cellM g.puzzle r c := cellM_setCellM_ne 0 r c hne
        rw [if_neg hmem, hcell]
        have : ¬ r * n0 + c ∈ idx :: rest := by
          intro hx
          rcases List.mem_cons.mp hx with h | h
          · exact hidx h.symm
          · exact hmem h
        rw [if_neg this]

theorem countP_mem_of_nodup (l : List Nat) (N : Nat) (hnd : l.Nodup)
    (hsub : ∀ x ∈ l, x < N) :
    ((List.range N).countP fun x => decide (x ∈ l)) = l.length := by
  rw [List.countP_eq_length_filter]
  have hfnd : ((List.range N).filter fun x => decide (x ∈ l)).Nodup :=
    (List.nodup_range N).filter _
  have h1 : l.Subperm ((List.range N).filter fun x => decide (x ∈ l)) := by
    apply List.subperm_of_subset hnd
    intro x hx
    rw [List.mem_filter]
    exact ⟨List.mem_range.mpr (hsub x hx), by simpa using hx⟩
  have h2 : ((List.range N).filter fun x => decide (x ∈ l)).Subperm l := by
    apply List.subperm_of_subset hfnd
    intro x hx
    have := (List.mem_filter.mp hx).2
    simpa using this
  exact (h1.antisymm h2).length_eq.symm

theorem removeNumbers_zero_count (g : Grid) (d : Nat) (cells : List Nat)
    (hWF : WFm g.size g.puzzle) (hNZ : NoZeros g.size g.puzzle)
    (hk : cellsToRemoveCount d g.size ≤ g.size * g.size)
    (hperm : cells.Perm (List.range (g.size * g.size))) :
    countZeros g.size (removeNumbers g d cells).puzzle = cellsToRemoveCount d g.size := by
  have hcnd : cells.Nodup := hperm.nodup_iff.mpr (List.nodup_range _)
  have htnd : (cells.take (cellsToRemoveCount d g.size)).Nodup :=
    (List.take_sublist _ _).nodup hcnd
  have htsub : ∀ x ∈ cells.take (cellsToRemoveCount d g.size), x < g.size * g.size := by
    intro x hx
    have : x ∈ cells := (List.take_sublist _ _).mem hx
    exact List.mem_range.mp (hperm.mem_iff.mp this)
  have htlen : (cells.take (cellsToRemoveCount d g.size)).length =
      cellsToRemoveCount d g.size := by
    rw [List.length_take, hperm.length_eq, List.length_range]
    omega
  unfold removeNumbers countZeros
  have hpt : ∀ idx ∈ List.range (g.size * g.size),
      (cellM ((cells.take (cellsToRemoveCount d g.size)).foldl
          (fun acc i => setPuzzle acc (i / g.size) (i % g.size) 0) g).puzzle
        (idx / g.size) (idx % g.size) = 0) =
      (idx ∈ cells.take (cellsToRemoveCount d g.size)) := by
    intro idx hidx
    have hlt : idx < g.size * g.size := List.mem_range.mp hidx
    have hn0 : 0 < g.size := by
      rcases Nat.eq_zero_or_pos g.size with h0 | h0
      · rw [h0] at hlt; simp at hlt
      · exact h0
    have hrlt : idx / g.size < g.size := Nat.div_lt_of_lt_mul hlt
    have hclt : idx % g.size < g.size := Nat.mod_lt idx hn0
    have hcell := carve_fold_cell g.size (cells.take (cellsToRemoveCount d g.size)) g
      (idx / g.size) (idx % g.size) hrlt hclt hWF
    rw [Nat.div_add_mod'] at hcell
    rw [hcell]
    by_cases hmem : idx ∈ cells.take (cellsToRemoveCount d g.size)
    · simp [hmem]
    · rw [if_neg hmem, eq_iff_iff]
      constructor
      · intro h0
        exact absurd h0 (hNZ _ hrlt _ hclt)
      · intro hm
        exact absurd hm hmem
  have hcongr : (List.range (g.size * g.size)).countP
      (fun idx => decide (cellM ((cells.take (cellsToRemoveCount d g.size)).foldl
          (fun acc i => setPuzzle acc (i / g.size) (i % g.size) 0) g).puzzle
        (idx / g.size) (idx % g.size) = 0)) =
      (List.range (g.size * g.size)).countP
        (fun idx => decide (idx ∈ cells.take (cellsToRemoveCount d g.size))) := by
    apply List.countP_congr
    intro idx hidx
    simp only [decide_eq_true_eq]
    rw [hpt idx hidx]
  rw [hcongr, countP_mem_of_nodup _ _ htnd htsub, htlen]

theorem cellsToRemoveCount_le (d n : Nat) (hd : d ≤ 5) : cellsToRemoveCount d n ≤ n * n := by
  unfold cellsToRemoveCount
  calc (d * 10 + 20) * n * n / 100 = ((d * 10 + 20) * (n * n)) / 100 := by
        rw [Nat.mul_assoc]
    _ ≤ (100 * (n * n)) / 100 :=
        Nat.div_le_div_right (Nat.mul_le_mul_right _ (by omega))
    _ = n * n := Nat.mul_div_cancel_left _ (by omega)

/-- C3: carving is a pure projection of the solved grid.  For a solved grid
(no zero cells) carved at difficulty `d ∈ [1,5]` with a shuffled permutation
of all cell indices: the retained solution is exactly the solved matrix and
is left unmodified by carving, every non-zero cell of the carved grid equals
the corresponding solution cell, and the number of zeroed cells equals
`(10*d + 20) * size * size / 100` (integer division, which is
`⌊((10d+20)/100) * size²⌋`) exactly. -/
theorem C3_carving_pure_projection (g : Grid) (d : Nat) (cells : List Nat)
    (hWF : WFm g.size g.puzzle) (hNZ : NoZeros g.size g.puzzle)
    (hd1 : 1 ≤ d) (hd5 : d ≤ 5)
    (hperm : cells.Perm (List.range (g.size * g.size))) :
    (removeNumbers { g with solution := g.puzzle } d cells).solution = g.puzzle ∧
    (∀ r < g.size, ∀ c < g.size,
      cellM (removeNumbers { g with solution := g.puzzle } d cells).puzzle r c ≠ 0 →
      cellM (removeNumbers { g with solution := g.puzzle } d cells).puzzle r c =
        cellM (removeNumbers { g with solution := g.puzzle } d cells).solution r c) ∧
    countZeros g.size (removeNumbers { g with solution := g.puzzle } d cells).puzzle =
      cellsToRemoveCount d g.size := by
  have hsol : (removeNumbers { g with solution := g.puzzle } d cells).solution = g.puzzle :=
    (carve_fold_fields g.size (cells.take (cellsToRemoveCount d g.size))
      { g with solution := g.puzzle }).2.2
  refine ⟨hsol, ?_, ?_⟩
  · intro r hr c hc hnz
    have hcell := carve_fold_cell g.size (cells.take (cellsToRemoveCount d g.size))
      { g with solution := g.puzzle } r c hr hc hWF
    rw [hsol]
    by_cases hmem : r * g.size + c ∈ cells.take (cellsToRemoveCount d g.size)
    · rw [show cellM (removeNumbers { g with solution := g.puzzle } d cells).puzzle r c = 0 by
        rw [show (removeNumbers { g with solution := g.puzzle } d cells).puzzle =
          ((cells.take (cellsToRemoveCount d g.size)).foldl
            (fun acc idx => setPuzzle acc (idx / g.size) (idx % g.size) 0)
            { g with solution := g.puzzle }).puzzle from rfl, hcell, if_pos hmem]] at hnz
      exact absurd rfl hnz
    · rw [show (removeNumbers { g with solution := g.puzzle } d cells).puzzle =
        ((cells.take (cellsToRemoveCount d g.size)).foldl
          (fun acc idx => setPuzzle acc (idx / g.size) (idx % g.size) 0)
          { g with solution := g.puzzle }).puzzle from rfl, hcell, if_neg hmem]
  · exact removeNumbers_zero_count { g with solution := g.puzzle } d cells hWF hNZ
      (cellsToRemoveCount_le d g.size hd5) hperm

instance (n : Nat) (m : List (List Nat)) : Decidable (WFm n m) := by
  unfold WFm
  infer_instance

instance (n : Nat) (m : List (List Nat)) : Decidable (NoZeros n m) := by
  unfold NoZeros
  infer_instance

/-- A concrete solved 2×2 grid for the carving witness. -/
def solvedGrid2 : Grid :=
  { size := 2
    boxWidth := 3
    boxHeight := 3
    puzzle := [[1, 2], [2, 1]]
    solution := [[0, 0], [0, 0]]
    subGrids := [[0, 1], [2, 3]]
    type := SudokuType.normal }

/-- Witness for the carving claim at a concrete solved 2×2 grid: difficulty 1
removes `30 * 4 / 100 = 1` cell. -/
theorem C3_carving_pure_projection_witness :
    (removeNumbers { solvedGrid2 with solution := solvedGrid2.puzzle } 1
      (List.range (2 * 2))).solution = solvedGrid2.puzzle ∧
    countZeros 2 (removeNumbers { solvedGrid2 with solution := solvedGrid2.puzzle } 1
      (List.range (2 * 2))).puzzle = 1 := by
  have h := C3_carving_pure_projection solvedGrid2 1 (List.range (2 * 2))
    (by decide) (by decide) (by decide) (by decide) (List.Perm.refl _)
  exact ⟨h.1, h.2.2⟩

/-- A concrete solved 9×9 grid (cyclically shifted rows), used to exhibit the
carving arithmetic at size 9. -/
def solvedGrid9 : Grid :=
  { size := 9
    boxWidth := 3
    boxHeight := 3
    puzzle := [[1, 2, 3, 4, 5, 6, 7, 8, 9],
               [4, 5, 6, 7, 8, 9, 1, 2, 3],
               [7, 8, 9, 1, 2, 3, 4, 5, 6],
               [2, 3, 4, 5, 6, 7, 8, 9, 1],
               [5, 6, 7, 8, 9, 1, 2, 3, 4],
               [8, 9, 1, 2, 3, 4, 5, 6, 7],
               [3, 4, 5, 6, 7, 8, 9, 1, 2],
               [6, 7, 8, 9, 1, 2, 3, 4, 5],
               [9, 1, 2, 3, 4, 5, 6, 7, 8]]
    solution := []
    subGrids := []
    type := SudokuType.normal }

/-- C4 as stated is false: carving a solved 9×9 grid at difficulty 1 zeroes
`(1*10 + 20) * 81 / 100 = 24` cells, not 27, as this concrete run shows. -/
theorem C4_counterexample_24_not_27 :
    countZeros 9 (removeNumbers { solvedGrid9 with solution := solvedGrid9.puzzle } 1
      (List.range (9 * 9))).puzzle = 24 ∧ (24 : Nat) ≠ 27 := by
  constructor
  · decide
  · decide

/-- C4 amended: for a request with size 9 and difficulty 1, a successfully
returned puzzle's carved grid has exactly 24 zero cells (the integer
arithmetic `(1*10 + 20) * 81 / 100` truncates 24.3 to 24). -/
theorem C4_difficulty1_size9_24_zeros (g : Grid) (cells : List Nat)
    (hsz : g.size = 9) (hWF : WFm g.size g.puzzle) (hNZ : NoZeros g.size g.puzzle)
    (hperm : cells.Perm (List.range (g.size * g.size))) :
    countZeros g.size (removeNumbers { g with solution := g.puzzle } 1 cells).puzzle = 24 := by
  have h := removeNumbers_zero_count { g with solution := g.puzzle } 1 cells hWF hNZ
    (cellsToRemoveCount_le 1 g.size (by omega)) hperm
  have hc24 : cellsToRemoveCount 1 ({ g with solution := g.puzzle } : Grid).size = 24 := by
    show cellsToRemoveCount 1 g.size = 24
    rw [hsz]
    decide
  exact h.trans hc24

/-- Witness for the amended size-9 carving claim at a concrete solved grid. -/
theorem C4_difficulty1_size9_24_zeros_witness :
    countZeros 9 (removeNumbers { solvedGrid9 with solution := solvedGrid9.puzzle } 1
      (List.range (9 * 9))).puzzle = 24 :=
  C4_difficulty1_size9_24_zeros solvedGrid9 (List.range (9 * 9)) rfl
    (by decide) (by decide) (List.Perm.refl _)

theorem list_getD_replicate {α : Type} (k : Nat) (x d : α) :
    ∀ i, (List.replicate k x).getD i d = if i < k then x else d := by
  induction k with
  | zero => intro i; simp [List.getD]
  | succ k ih =>
    intro i
    cases i with
    | zero => simp [List.replicate, List.getD]
    | succ i =>
      simp only [List.replicate, List.getD_cons_succ, ih i]
      by_cases h : i < k
      · rw [if_pos h, if_pos (by omega)]
      · rw [if_neg h, if_neg (by omega)]

theorem cellM_zero_matrix (n r c : Nat) :
    cellM (List.replicate n (List.replicate n 0)) r c = 0 := by
  unfold cellM
  rw [list_getD_replicate]
  by_cases h : r < n
  · rw [if_pos h, list_getD_replicate]
    by_cases h2 : c < n
    · rw [if_pos h2]
    · rw [if_neg h2]
  · rw [if_neg h]
    simp [List.getD]

theorem goodGrid_newGrid (n : Nat) (typ : SudokuType) (sg : List (List Nat)) :
    GoodGrid n sg { newGrid n typ with subGrids := sg } := by
  refine ⟨rfl, rfl, ⟨by simp [newGrid], ?_⟩, ?_, ?_⟩
  · intro row hrow
    have := List.eq_of_mem_replicate (by simpa [newGrid] using hrow)
    rw [this]
    simp
  · intro r _ c _
    show cellM (List.replicate n (List.replicate n 0)) r c ≤ n
    rw [cellM_zero_matrix]
    exact Nat.zero_le n
  · intro v hv
    refine ⟨?_, ?_, ?_⟩
    · intro r _
      have h0 : (rowVals n (List.replicate n (List.replicate n 0)) r).count v = 0 := by
        apply count_map_eq_zero_of_forall_ne
        intro x _
        rw [cellM_zero_matrix]
        omega
      show (rowVals n (List.replicate n (List.replicate n 0)) r).count v ≤ 1
      omega
    · intro c _
      have h0 : (colVals n (List.replicate n (List.replicate n 0)) c).count v = 0 := by
        apply count_map_eq_zero_of_forall_ne
        intro x _
        rw [cellM_zero_matrix]
        omega
      show (colVals n (List.replicate n (List.replicate n 0)) c).count v ≤ 1
      omega
    · intro reg _
      have h0 : (regionVals n (List.replicate n (List.replicate n 0)) reg).count v = 0 := by
        apply count_map_eq_zero_of_forall_ne
        intro x _
        rw [cellM_zero_matrix]
        omega
      show (regionVals n (List.replicate n (List.replicate n 0)) reg).count v ≤ 1
      omega

theorem solveAndCarve_sound (n : Nat) (sg : List (List Nat)) (hPart : Partition n sg)
    (g : Grid) (hG : GoodGrid n sg g) (d : Nat) (ord shuf : Nat → List Nat)
    (timedOut : Bool) (t : Nat) (P : Grid) (t2 : Nat)
    (hord : ∀ t', ∀ x ∈ ord t', 1 ≤ x ∧ x ≤ n)
    (hrun : solveAndCarve g d ord shuf timedOut t = (some P, t2)) :
    LatinSquare n P.subGrids P.solution := by
  unfold solveAndCarve at hrun
  rcases hsolve : solveAux ord timedOut (g.size * g.size + 1) g t with ⟨b, g2, t3⟩
  rw [hsolve] at hrun
  cases b
  · simp at hrun
  · simp only [Prod.mk.injEq, Option.some.injEq] at hrun
    obtain ⟨hP, ht⟩ := hrun
    have hsound := solveAux_sound ord timedOut n sg hPart hord (g.size * g.size + 1) g t hG
      (by rw [hsolve])
    rw [hsolve] at hsound
    obtain ⟨hG2, hNZ2⟩ := hsound
    have hcf := carve_fold_fields g2.size
      ((shuf t3).take (cellsToRemoveCount d g2.size)) { g2 with solution := g2.puzzle }
    have hPsol : P.solution = g2.puzzle := by
      rw [← hP]
      exact hcf.2.2
    have hPsub : P.subGrids = sg := by
      rw [← hP]
      have := hcf.2.1
      simpa using this.trans hG2.2.1
    rw [hPsol, hPsub]
    exact latin_of_goodGrid n sg hPart g2.puzzle hG2.2.2.1 hG2.2.2.2.1 hG2.2.2.2.2 hNZ2

theorem generateAttempt_sound (size d : Nat) (typ : SudokuType) (pick : Nat → Nat)
    (ord shuf : Nat → List Nat) (timedOut : Bool) (t : Nat) (P : Grid) (t2 : Nat)
    (hord : ∀ t', ∀ x ∈ ord t', 1 ≤ x ∧ x ≤ size)
    (hreg : typ = SudokuType.jigsaw ∨ Partition size (generateNormalSubgrids size))
    (hrun : generateAttempt size d typ pick ord shuf timedOut t = (some P, t2)) :
    LatinSquare size P.subGrids P.solution := by
  cases typ with
  | jigsaw =>
    unfold generateAttempt at hrun
    rcases hjig : generateJigsawRegionsSerial size pick 1000000 t with ⟨res, t3⟩
    rw [hjig] at hrun
    rcases res with _ | regions
    · simp at hrun
    · have hPart := (generateJigsawRegionsSerial_sound size pick 1000000 t regions t3 hjig).1
      exact solveAndCarve_sound size regions hPart _ (goodGrid_newGrid size _ regions)
        d ord shuf timedOut t3 P t2 hord hrun
  | normal =>
    rcases hreg with h | hPart
    · cases h
    · unfold generateAttempt at hrun
      exact solveAndCarve_sound size (generateNormalSubgrids size) hPart _
        (goodGrid_newGrid size _ _) d ord shuf timedOut t P t2 hord hrun

/-- C1: for every grid returned successfully by `Generate` (the serial retry
loop over attempts), the stored solution satisfies the full
Latin-square-with-regions property: every row, every column and every region
of the stored region set contains each value `1..size` exactly once, and no
zero remains.  For the jigsaw layout the region partition is guaranteed by
the synthesizer's acceptance test; for the box layout it holds for the
supported sizes (hypothesis `hreg`, checked by computation for 9, 12, 16). -/
theorem C1_generate_solution_latin (size d : Nat) (typ : SudokuType) (pick : Nat → Nat)
    (ord shuf : Nat → List Nat) (timedOut : Bool) (retries t : Nat) (P : Grid) (t2 : Nat)
    (hord : ∀ t', ∀ x ∈ ord t', 1 ≤ x ∧ x ≤ size)
    (hreg : typ = SudokuType.jigsaw ∨ Partition size (generateNormalSubgrids size))
    (hrun : generateSerial size d typ pick ord shuf timedOut retries t = (some P, t2)) :
    LatinSquare size P.subGrids P.solution := by
  induction retries generalizing t with
  | zero => simp [generateSerial] at hrun
  | succ retries ih =>
    rcases hatt : generateAttempt size d typ pick ord shuf timedOut t with ⟨res, t3⟩
    simp only [generateSerial, hatt] at hrun
    rcases res with _ | P2
    · exact ih t3 hrun
    · simp only [Prod.mk.injEq, Option.some.injEq] at hrun
      obtain ⟨hP, ht⟩ := hrun
      rw [← hP]
      exact generateAttempt_sound size d typ pick ord shuf timedOut t P2 t3 hord hreg hatt

/-- The cell-shuffle oracle of the 2×2 generation witness. -/
def shuffle4 : Nat → List Nat := fun _ => [0, 1, 2, 3]

/-- The puzzle produced by the concrete 2×2 jigsaw generation run. -/
def generatedPuzzle2 : Grid :=
  { size := 2
    boxWidth := 3
    boxHeight := 3
    puzzle := [[0, 2], [2, 1]]
    solution := [[1, 2], [2, 1]]
    subGrids := [[0, 1], [2, 3]]
    type := SudokuType.jigsaw }

/-- Witness for the generation claim: a concrete 2×2 jigsaw run of the serial
generator succeeds and its stored solution satisfies the full
Latin-square-with-regions property. -/
theorem C1_generate_solution_latin_witness :
    LatinSquare 2 generatedPuzzle2.subGrids generatedPuzzle2.solution :=
  C1_generate_solution_latin 2 1 SudokuType.jigsaw jigsawPick2 valueOrder2 shuffle4
    false 1 0 generatedPuzzle2 9
    (by
      intro t' x hx
      simp only [valueOrder2, List.mem_cons, List.mem_singleton] at hx
      rcases hx with h | h
      · subst h; exact ⟨by decide, by decide⟩
      · simp at h
        subst h
        exact ⟨by decide, by decide⟩)
    (Or.inl rfl) rfl
